import Mathlib

/-!
Verification of the TIS-100 program synthesizer (`src/main.ts`, with the
`src/emu.ts` emulator variant).  The TypeScript source is shallowly embedded:
`Record<string, any>` decision stores become association lists over an `Opt`
value type, thrown control-flow exceptions become an explicit `Sig` signal
type carried through `Except`, and the driver loops are given explicit fuel.
-/

set_option maxRecDepth 8000

namespace TIS

/-- `const MAX_INSTRS = 3;` in `main.ts`. -/
def MAX_INSTRS : Nat := 3

/-- The option values that occur in decision-point domains in the source:
string tokens (opcodes, ports, "ACC", "sym", "NIL") and numeric constants. -/
inductive Opt where
  | str : String → Opt
  | num : Int → Opt
deriving DecidableEq, Repr

/-- `type Param<T> = { key: string; options: readonly T[] }`. -/
structure Param where
  key : String
  options : List Opt
deriving DecidableEq, Repr

/-- `function param<T>(name, options)` in `main.ts`. -/
def param (name : String) (options : List Opt) : Param :=
  { key := name, options := options }

/-- `argRead` in `main.ts`: the read-operand decision point. -/
def argRead (name : String) : Param :=
  param ("read-arg-" ++ name)
    [Opt.str "UP", Opt.str "LEFT", Opt.str "RIGHT", Opt.str "DOWN",
     Opt.str "ACC", Opt.str "sym"]

/-- `argWrite` in `main.ts`: the write-operand decision point. -/
def argWrite (name : String) : Param :=
  param ("write-arg-" ++ name)
    [Opt.str "UP", Opt.str "LEFT", Opt.str "RIGHT", Opt.str "DOWN",
     Opt.str "ACC", Opt.str "NIL"]

/-- `paramOp` in `main.ts`: the opcode decision point. -/
def paramOp (name : String) : Param :=
  param ("op-" ++ name)
    [Opt.str "ADD", Opt.str "SUB", Opt.str "MOV", Opt.str "NEG",
     Opt.str "SWP", Opt.str "SAV", Opt.str "NOP"]

/-- `constantParam` in `main.ts`: the numeric-constant decision point,
with domain `[0, 2]`. -/
def constantParam (name : String) : Param :=
  param ("const-" ++ name) [Opt.num 0, Opt.num 2]

/-- `type ParamContext = { values: Record<string, any> }`, embedded as an
association list; `ctxGet` is the `key in values` lookup (first binding wins,
matching JS object-spread override semantics). -/
abbrev ParamContext := List (String × Opt)

def ctxGet : ParamContext → String → Option Opt
  | [], _ => none
  | (k, v) :: rest, key => if k = key then some v else ctxGet rest key

/-- `const emptyContext: ParamContext = { values: {} }`. -/
def emptyContext : ParamContext := []

/-- The thrown control-flow signals of the source: `ParamMissingError`
(carrying the missing `Param`; the TS error also carries the context, which
`solve` never reads), `StateViolationError`, `StuckError`, `DoneError`,
`RedundancyError` (from `emu.ts`), and plain `Error(msg)` (fatal). -/
inductive Sig where
  | missing : Param → Sig
  | stateViolation : Sig
  | stuck : Sig
  | done : Sig
  | redundancy : Sig
  | fatal : String → Sig
deriving DecidableEq, Repr

/-- `loadParam` in `main.ts`: return the bound value, else throw
`ParamMissingError`. -/
def loadParam (ctx : ParamContext) (p : Param) : Except Sig Opt :=
  match ctxGet ctx p.key with
  | some v => Except.ok v
  | none => Except.error (Sig.missing p)

/-- `assignParam` in `main.ts`: throws a plain `Error` (fatal) if the key is
already assigned, else returns a fresh context with the binding added. -/
def assignParam (ctx : ParamContext) (p : Param) (v : Opt) :
    Except Sig ParamContext :=
  match ctxGet ctx p.key with
  | some _ => Except.error (Sig.fatal "param key was already assigned")
  | none => Except.ok ((p.key, v) :: ctx)

/-- `bifurcateParam` in `main.ts`:
`param.options.map((option) => assignParam(context, param, option))`. -/
def bifurcateParam (ctx : ParamContext) (p : Param) :
    Except Sig (List ParamContext) :=
  p.options.mapM (fun o => assignParam ctx p o)

/-! ## The generic node emulator of `main.ts` -/

/-- The per-run register state `(pc, acc, bak)` of `emulateNode`. -/
structure NodeState (Value : Type) where
  pc : Nat
  acc : Value
  bak : Value
deriving DecidableEq, Repr

/-- The `arithmetic` capability parameter of `emulateNode`.  In TS these
functions may throw (e.g. the concrete `add` on overflow, `symbol` on a
missing constant decision), rendered here as `Except Sig`. -/
structure Arith (Value : Type) where
  zero : Value
  add : Value → Value → Except Sig Value
  neg : Value → Except Sig Value
  symbol : String → Except Sig Value

/-- The `interaction` capability parameter of `emulateNode`.  The TS hooks
are stateful closures (input/output cursors, encounter sets), so they thread
an explicit state `σ`; a thrown signal carries the state at throw time.
The TS port argument is an unchecked string at runtime, so it is passed as
the raw `Opt` operand value. -/
structure Interaction (Value σ : Type) where
  recv : Opt → σ → Except (Sig × σ) (Value × σ)
  send : Opt → Value → σ → Except (Sig × σ) σ

/-- Lift a stateless `Except Sig` computation into the state-carrying error
shape, attaching the current hook state to any thrown signal. -/
def withS {α σ : Type} (s : σ) : Except Sig α → Except (Sig × σ) α
  | Except.ok a => Except.ok a
  | Except.error e => Except.error (e, s)

def isNum : Opt → Bool
  | Opt.num _ => true
  | Opt.str _ => false

/-- The inner `recv(src, place)` helper of `emulateNode` in `main.ts`:
`ACC` reads the accumulator, `sym` queries `arithmetic.symbol(place)`,
anything else is delegated to `interaction.recv`. -/
def recvVal {Value σ : Type} (arith : Arith Value) (inter : Interaction Value σ)
    (acc : Value) (src : Opt) (place : String) (s : σ) :
    Except (Sig × σ) (Value × σ) :=
  if src = Opt.str "ACC" then Except.ok (acc, s)
  else if src = Opt.str "sym" then
    match arith.symbol place with
    | Except.ok v => Except.ok (v, s)
    | Except.error e => Except.error (e, s)
  else inter.recv src s

/-- The inner `send(dst, value)` helper of `emulateNode` in `main.ts`:
`NIL` discards, `ACC` assigns the accumulator, anything else is delegated to
`interaction.send`.  Returns the (possibly reassigned) accumulator together
with the hook state. -/
def sendVal {Value σ : Type} (inter : Interaction Value σ)
    (dst : Opt) (v : Value) (acc : Value) (s : σ) :
    Except (Sig × σ) (Value × σ) :=
  if dst = Opt.str "NIL" then Except.ok (acc, s)
  else if dst = Opt.str "ACC" then Except.ok (v, s)
  else
    match inter.send dst v s with
    | Except.ok s1 => Except.ok (acc, s1)
    | Except.error e => Except.error e

/-- One iteration of the `while (true)` loop of `emulateNode` in `main.ts`:
report, load the opcode, dispatch, and advance `pc` modulo `MAX_INSTRS`.
`ser` models `JSON.stringify([pc, acc, bak])` for the value domain. -/
def emulateStep {Value σ : Type} (program : ParamContext)
    (ser : Nat → Value → Value → String)
    (report : String → σ → Except (Sig × σ) σ)
    (inter : Interaction Value σ) (arith : Arith Value)
    (st : NodeState Value) (s : σ) :
    Except (Sig × σ) (NodeState Value × σ) :=
  match report (ser st.pc st.acc st.bak) s with
  | Except.error e => Except.error e
  | Except.ok s =>
    match loadParam program (paramOp ("node00:" ++ toString st.pc)) with
    | Except.error e => Except.error (e, s)
    | Except.ok op =>
      match op with
      | Opt.str "ADD" =>
        match withS s (loadParam program (argRead ("node00:" ++ toString st.pc))) with
        | Except.error e => Except.error e
        | Except.ok src =>
          match recvVal arith inter st.acc src ("node00:" ++ toString st.pc) s with
          | Except.error e => Except.error e
          | Except.ok (v, s) =>
            match withS s (arith.add st.acc v) with
            | Except.error e => Except.error e
            | Except.ok acc1 =>
              Except.ok ({ pc := (st.pc + 1) % MAX_INSTRS, acc := acc1, bak := st.bak }, s)
      | Opt.str "SUB" =>
        match withS s (loadParam program (argRead ("node00:" ++ toString st.pc))) with
        | Except.error e => Except.error e
        | Except.ok src =>
          match recvVal arith inter st.acc src ("node00:" ++ toString st.pc) s with
          | Except.error e => Except.error e
          | Except.ok (v, s) =>
            match withS s (arith.neg v) with
            | Except.error e => Except.error e
            | Except.ok nv =>
              match withS s (arith.add st.acc nv) with
              | Except.error e => Except.error e
              | Except.ok acc1 =>
                Except.ok ({ pc := (st.pc + 1) % MAX_INSTRS, acc := acc1, bak := st.bak }, s)
      | Opt.str "MOV" =>
        match withS s (loadParam program (argRead ("node00:" ++ toString st.pc))) with
        | Except.error e => Except.error e
        | Except.ok src =>
          match recvVal arith inter st.acc src ("node00:" ++ toString st.pc) s with
          | Except.error e => Except.error e
          | Except.ok (v, s) =>
            match withS s (loadParam program (argWrite ("node00:" ++ toString st.pc))) with
            | Except.error e => Except.error e
            | Except.ok dst =>
              match sendVal inter dst v st.acc s with
              | Except.error e => Except.error e
              | Except.ok (acc1, s) =>
                -- sanity check for pointless programs (`main.ts` lines
                -- 136-142); the TS test is
                -- `typeof read === "number" || read === "ACC"`.
                if dst = Opt.str "NIL" ∧ (isNum src ∨ src = Opt.str "ACC") then
                  Except.error (Sig.stateViolation, s)
                else
                  Except.ok ({ pc := (st.pc + 1) % MAX_INSTRS, acc := acc1, bak := st.bak }, s)
      | Opt.str "NEG" =>
        match withS s (arith.neg st.acc) with
        | Except.error e => Except.error e
        | Except.ok acc1 =>
          Except.ok ({ pc := (st.pc + 1) % MAX_INSTRS, acc := acc1, bak := st.bak }, s)
      | Opt.str "SWP" =>
        Except.ok ({ pc := (st.pc + 1) % MAX_INSTRS, acc := st.bak, bak := st.acc }, s)
      | Opt.str "SAV" =>
        Except.ok ({ pc := (st.pc + 1) % MAX_INSTRS, acc := st.acc, bak := st.acc }, s)
      | Opt.str "NOP" =>
        Except.ok ({ pc := (st.pc + 1) % MAX_INSTRS, acc := st.acc, bak := st.bak }, s)
      | _ =>
        -- `({...}[op]())` on a value outside the opcode table is a TS
        -- runtime TypeError; fatal, like any uncaught error.
        Except.error (Sig.fatal "op dispatch", s)

/-- The `while (true)` loop of `emulateNode`, run for `fuel` iterations.
The TS loop never returns normally, so the result is the thrown signal
(with the hook state at throw time), or `none` if the fuel ran out. -/
def emulateRun {Value σ : Type} (program : ParamContext)
    (ser : Nat → Value → Value → String)
    (report : String → σ → Except (Sig × σ) σ)
    (inter : Interaction Value σ) (arith : Arith Value) :
    Nat → NodeState Value → σ → Option (Sig × σ)
  | 0, _, _ => none
  | fuel + 1, st, s =>
    match emulateStep program ser report inter arith st s with
    | Except.error e => some e
    | Except.ok (st1, s1) => emulateRun program ser report inter arith fuel st1 s1

/-! ## The `emu.ts` emulator variant

`emu.ts` exports the same emulator with two differences: the program is given
as total functions of the program counter (no decision store), and the
pointless-`MOV` check throws the dedicated `RedundancyError` instead of
`StateViolationError`.  There `MAX_INSTRS = 4` and the symbol name is
`` `${pc}:` ``. -/

def EMU_MAX_INSTRS : Nat := 4

/-- The `program` parameter of `emulateNode` in `emu.ts`: the operand types
are string unions, so plain strings here. -/
structure EmuProgram where
  op : Nat → String
  src : Nat → String
  dst : Nat → String

/-- One iteration of the `while (true)` loop of `emulateNode` in `emu.ts`. -/
def emuStep {Value σ : Type} (program : EmuProgram)
    (ser : Nat → Value → Value → String)
    (report : String → σ → Except (Sig × σ) σ)
    (inter : Interaction Value σ) (arith : Arith Value)
    (st : NodeState Value) (s : σ) :
    Except (Sig × σ) (NodeState Value × σ) :=
  match report (ser st.pc st.acc st.bak) s with
  | Except.error e => Except.error e
  | Except.ok s =>
    let pcNext := (st.pc + 1) % EMU_MAX_INSTRS
    let place := toString st.pc ++ ":"
    match program.op st.pc with
    | "ADD" =>
      match recvVal arith inter st.acc (Opt.str (program.src st.pc)) place s with
      | Except.error e => Except.error e
      | Except.ok (v, s) =>
        match withS s (arith.add st.acc v) with
        | Except.error e => Except.error e
        | Except.ok acc1 => Except.ok ({ pc := pcNext, acc := acc1, bak := st.bak }, s)
    | "SUB" =>
      match recvVal arith inter st.acc (Opt.str (program.src st.pc)) place s with
      | Except.error e => Except.error e
      | Except.ok (v, s) =>
        match withS s (arith.neg v) with
        | Except.error e => Except.error e
        | Except.ok nv =>
          match withS s (arith.add st.acc nv) with
          | Except.error e => Except.error e
          | Except.ok acc1 => Except.ok ({ pc := pcNext, acc := acc1, bak := st.bak }, s)
    | "MOV" =>
      match recvVal arith inter st.acc (Opt.str (program.src st.pc)) place s with
      | Except.error e => Except.error e
      | Except.ok (v, s) =>
        match sendVal inter (Opt.str (program.dst st.pc)) v st.acc s with
        | Except.error e => Except.error e
        | Except.ok (acc1, s) =>
          -- sanity check for pointless programs (`emu.ts` lines 70-77); the
          -- TS test is `typeof read === "number" || read === "ACC"`, and
          -- `program.src` always returns a string, so only `"ACC"` can fire.
          if program.dst st.pc = "NIL" ∧ (False ∨ program.src st.pc = "ACC") then
            Except.error (Sig.redundancy, s)
          else
            Except.ok ({ pc := pcNext, acc := acc1, bak := st.bak }, s)
    | "NEG" =>
      match withS s (arith.neg st.acc) with
      | Except.error e => Except.error e
      | Except.ok acc1 => Except.ok ({ pc := pcNext, acc := acc1, bak := st.bak }, s)
    | "SWP" => Except.ok ({ pc := pcNext, acc := st.bak, bak := st.acc }, s)
    | "SAV" => Except.ok ({ pc := pcNext, acc := st.acc, bak := st.acc }, s)
    | "NOP" => Except.ok ({ pc := pcNext, acc := st.acc, bak := st.bak }, s)
    | _ => Except.error (Sig.fatal "op dispatch", s)

/-! ## The concrete search driver `solve` of `main.ts` -/

/-- One test case handed to `solve`: `{ input: number[]; output: number[] }`. -/
structure Scenario where
  input : List Int
  output : List Int
deriving DecidableEq, Repr

/-- The mutable closure state of one scenario run inside `solve`:
`inputCounter`, `outputCounter`, the per-run `encounters` set, and the
per-candidate (cross-scenario) `targetable` map. -/
structure RunState where
  inputCounter : Nat
  outputCounter : Nat
  encounters : List String
  targetable : List (String × String)
deriving DecidableEq, Repr

/-- `array.join(";")` on numbers, as used for `target` and `detailState`. -/
def joinInts : List Int → String
  | [] => ""
  | [x] => toString x
  | x :: y :: rest => toString x ++ ";" ++ joinInts (y :: rest)

/-- `Map.get` on the `targetable` map (first binding wins). -/
def tgtGet : List (String × String) → String → Option String
  | [], _ => none
  | (k, v) :: rest, key => if k = key then some v else tgtGet rest key

/-- `Map.set` on the `targetable` map: the new binding shadows any old one. -/
def tgtSet (m : List (String × String)) (k v : String) : List (String × String) :=
  (k, v) :: m

/-- `` `${report};${inputCounter};${outputCounter}` `` in the report hook. -/
def fullReport (report : String) (rs : RunState) : String :=
  report ++ ";" ++ toString rs.inputCounter ++ ";" ++ toString rs.outputCounter

/-- `scenario.output.slice(outputCounter).join(";")` in the report hook. -/
def targetOf (sc : Scenario) (rs : RunState) : String :=
  joinInts (sc.output.drop rs.outputCounter)

/-- `` `${scenario.input.slice(inputCounter).join(";")} -> ${report}` ``
in the report hook: the key of the `targetable` map. -/
def detailStateOf (sc : Scenario) (rs : RunState) (report : String) : String :=
  joinInts (sc.input.drop rs.inputCounter) ++ " -> " ++ report

/-- The report hook closure of `solve` (`main.ts` lines 211-233): the
per-run infinite-loop check on `encounters`, then the cross-scenario
`targetable` consistency check. -/
def reportHook (sc : Scenario) (report : String) (rs : RunState) :
    Except (Sig × RunState) RunState :=
  let fr := fullReport report rs
  if fr ∈ rs.encounters then Except.error (Sig.stateViolation, rs)
  else
    let rs1 : RunState := { rs with encounters := fr :: rs.encounters }
    let tgt := targetOf sc rs1
    let ds := detailStateOf sc rs1 report
    match tgtGet rs1.targetable ds with
    | some t =>
      if t ≠ tgt then Except.error (Sig.stateViolation, rs1)
      else Except.ok { rs1 with targetable := tgtSet rs1.targetable ds tgt }
    | none => Except.ok { rs1 with targetable := tgtSet rs1.targetable ds tgt }

/-- The `recv` hook closure of `solve` (`main.ts` lines 235-245). -/
def recvHook (sc : Scenario) (port : Opt) (rs : RunState) :
    Except (Sig × RunState) (Int × RunState) :=
  if port ≠ Opt.str "UP" then Except.error (Sig.stateViolation, rs)
  else if sc.input.length ≤ rs.inputCounter then Except.error (Sig.stuck, rs)
  else
    Except.ok (sc.input.getD rs.inputCounter 0,
      { rs with inputCounter := rs.inputCounter + 1 })

/-- The `send` hook closure of `solve` (`main.ts` lines 246-262).  Output
past the expected length throws a plain `Error("unreachable")` (fatal),
not a `StateViolationError`. -/
def sendHook (sc : Scenario) (port : Opt) (value : Int) (rs : RunState) :
    Except (Sig × RunState) RunState :=
  if port ≠ Opt.str "DOWN" then Except.error (Sig.stateViolation, rs)
  else if sc.output.length ≤ rs.outputCounter then
    Except.error (Sig.fatal "unreachable", rs)
  else if value ≠ sc.output.getD rs.outputCounter 0 then
    Except.error (Sig.stateViolation, rs)
  else
    let rs1 : RunState := { rs with outputCounter := rs.outputCounter + 1 }
    if sc.output.length ≤ rs1.outputCounter then Except.error (Sig.done, rs1)
    else Except.ok rs1

def scenarioHooks (sc : Scenario) : Interaction Int RunState where
  recv := recvHook sc
  send := sendHook sc

/-- The concrete `add` of `solve` (`main.ts` lines 265-271): the exact sum,
unless it leaves `[-999, 999]`, which is a `StateViolationError`. -/
def concreteAdd (a b : Int) : Except Sig Int :=
  let v := a + b
  if v > 999 ∨ v < -999 then Except.error Sig.stateViolation else Except.ok v

/-- The constant bound in a store is a number in TS; a non-numeric binding
would make the arithmetic meaningless (unreachable through the search
discipline, since `constantParam` domains hold only numbers). -/
def optToInt : Opt → Except Sig Int
  | Opt.num n => Except.ok n
  | Opt.str _ => Except.error (Sig.fatal "constant is not a number")

/-- The concrete arithmetic of `solve` (`main.ts` lines 264-279); `symbol`
closes over the candidate store and resolves a `constantParam`. -/
def concreteArith (ctx : ParamContext) : Arith Int where
  zero := 0
  add := concreteAdd
  neg := fun a => Except.ok (-a)
  symbol := fun place =>
    match loadParam ctx (constantParam place) with
    | Except.error e => Except.error e
    | Except.ok v => optToInt v

/-- `JSON.stringify([pc, acc, bak])` for the concrete `number` domain. -/
def jsonState (pc : Nat) (acc bak : Int) : String :=
  "[" ++ toString pc ++ "," ++ toString acc ++ "," ++ toString bak ++ "]"

/-- One emulation step of a candidate under a scenario's hooks, exactly as
`solve` instantiates `emulateNode`. -/
def stepC (ctx : ParamContext) (sc : Scenario) (st : NodeState Int)
    (rs : RunState) : Except (Sig × RunState) (NodeState Int × RunState) :=
  emulateStep ctx jsonState (reportHook sc) (scenarioHooks sc)
    (concreteArith ctx) st rs

def initNode : NodeState Int := { pc := 0, acc := 0, bak := 0 }

def initRun (tgt : List (String × String)) : RunState :=
  { inputCounter := 0, outputCounter := 0, encounters := [], targetable := tgt }

/-- One scenario run inside `solve`: fresh registers and counters, the
`targetable` map carried over from earlier scenarios of the same candidate. -/
def runScenario (fuel : Nat) (ctx : ParamContext) (sc : Scenario)
    (tgt : List (String × String)) : Option (Sig × RunState) :=
  emulateRun ctx jsonState (reportHook sc) (scenarioHooks sc)
    (concreteArith ctx) fuel initNode (initRun tgt)

/-- The per-candidate outcome of the scenario loop in `solve`. -/
inductive EvalResult where
  | invalid : EvalResult
  | fatalErr : String → EvalResult
  | finished : Nat → Option Param → EvalResult
  | noFuel : EvalResult
deriving DecidableEq, Repr

/-- The `for (const scenario of scenarios)` loop of `solve` with its
`catch` dispatch (`main.ts` lines 204-302): a `StateViolationError` or
`StuckError` breaks with `violation = true` (here `.invalid`); a
`ParamMissingError` overwrites `bifurcation` and continues; a `DoneError`
bumps `doneCount` and continues; anything else is rethrown (fatal). -/
def evalGo (fuel : Nat) (ctx : ParamContext) (doneCount : Nat)
    (branchPt : Option Param) (tgt : List (String × String)) :
    List Scenario → EvalResult
  | [] => EvalResult.finished doneCount branchPt
  | sc :: rest =>
    match runScenario fuel ctx sc tgt with
    | none => EvalResult.noFuel
    | some (sig, rs) =>
      match sig with
      | Sig.stateViolation => EvalResult.invalid
      | Sig.missing p => evalGo fuel ctx doneCount (some p) rs.targetable rest
      | Sig.done => evalGo fuel ctx (doneCount + 1) branchPt rs.targetable rest
      | Sig.stuck => EvalResult.invalid
      | Sig.redundancy => EvalResult.fatalErr "redundancy"
      | Sig.fatal m => EvalResult.fatalErr m

/-- The final disposition of the search. -/
inductive SolveResult where
  | success : ParamContext → SolveResult
  | exhausted : SolveResult
  | fatalErr : String → SolveResult
deriving DecidableEq, Repr

/-- The `while (search.length > 0)` loop of `solve` (`main.ts` lines
193-322), with the stack head as top of stack; `search.push(...children)`
makes the last child the next pop, hence `children.reverse ++ stack`.
The TS loop checks `doneCount === scenarios.length` before `violation`,
but a violation always breaks before the final scenario reports done, so
checking `.invalid` first is equivalent.  `none` means the outer fuel ran
out (a model artifact; termination of the loop is proved separately). -/
def solveLoop (scs : List Scenario) (innerFuel : Nat) :
    Nat → List ParamContext → Option SolveResult
  | 0, _ => none
  | _ + 1, [] => some SolveResult.exhausted
  | fuel + 1, ctx :: stack =>
    match evalGo innerFuel ctx 0 none [] scs with
    | EvalResult.noFuel => some (SolveResult.fatalErr "inner fuel exhausted")
    | EvalResult.invalid => solveLoop scs innerFuel fuel stack
    | EvalResult.fatalErr m => some (SolveResult.fatalErr m)
    | EvalResult.finished d branchPt =>
      if d = scs.length then some (SolveResult.success ctx)
      else
        match branchPt with
        | none => solveLoop scs innerFuel fuel stack
        | some p =>
          match bifurcateParam ctx p with
          | Except.error _ => some (SolveResult.fatalErr "bifurcate")
          | Except.ok children =>
            solveLoop scs innerFuel fuel (children.reverse ++ stack)

/-! ## Spec-side definitions (for refinement comparisons) -/

/-- Modelled from the spec claim (C5 wording): a detail-state key consisting
of the remaining expected input, the remaining expected output length, and
the current reported machine state.  The source key (`detailStateOf`) is
compared against this. -/
def specDetailKey (sc : Scenario) (rs : RunState) (report : String) :
    List Int × Nat × String :=
  (sc.input.drop rs.inputCounter, (sc.output.drop rs.outputCounter).length,
   report)

/-! ## Shared fixtures for witnesses -/

/-- A trivial concrete interaction over `Int` with trivial hook state. -/
def inter0 : Interaction Int Unit where
  recv := fun _ s => Except.ok (7, s)
  send := fun _ _ s => Except.ok s

/-- A trivial total arithmetic over `Int`. -/
def arith0 : Arith Int where
  zero := 0
  add := fun a b => Except.ok (a + b)
  neg := fun a => Except.ok (-a)
  symbol := fun _ => Except.ok 0

/-- A report hook that never throws. -/
def report0 : String → Unit → Except (Sig × Unit) Unit := fun _ s => Except.ok s

/-! ## Basic store lemmas -/

instance {ε α : Type} [DecidableEq ε] [DecidableEq α] :
    DecidableEq (Except ε α) := fun x y =>
  match x, y with
  | Except.ok a, Except.ok b =>
    if h : a = b then Decidable.isTrue (by rw [h])
    else Decidable.isFalse (by simp [h])
  | Except.error e, Except.error f =>
    if h : e = f then Decidable.isTrue (by rw [h])
    else Decidable.isFalse (by simp [h])
  | Except.ok _, Except.error _ => Decidable.isFalse (by simp)
  | Except.error _, Except.ok _ => Decidable.isFalse (by simp)

theorem ctxGet_cons (k : String) (v : Opt) (ctx : ParamContext) (key : String) :
    ctxGet ((k, v) :: ctx) key = if k = key then some v else ctxGet ctx key := rfl

theorem bifurcate_unbound (ctx : ParamContext) (p : Param)
    (h : ctxGet ctx p.key = none) :
    bifurcateParam ctx p =
      Except.ok (p.options.map (fun o => (p.key, o) :: ctx)) := by
  unfold bifurcateParam
  induction p.options with
  | nil => rfl
  | cons a l ih =>
    rw [List.mapM_cons, ih]
    simp only [assignParam, h]
    rfl

/-- A successful bifurcation of a decision point with a nonempty domain
implies the key was unbound (`assignParam` throws otherwise). -/
theorem bifurcate_ok_unbound {ctx : ParamContext} {p : Param}
    {children : List ParamContext}
    (h : bifurcateParam ctx p = Except.ok children) (a : Opt) (l : List Opt)
    (hopt : p.options = a :: l) :
    ctxGet ctx p.key = none := by
  rcases hget : ctxGet ctx p.key with _ | v
  · rfl
  · exfalso
    rw [bifurcateParam, hopt, List.mapM_cons] at h
    simp [assignParam, hget, Bind.bind, Except.bind] at h

theorem getD_map_of_lt {α β : Type} (f : α → β) (l : List α) (i : Nat)
    (d : β) (hd : α) (hi : i < l.length) :
    (l.map f).getD i d = f (l.getD i hd) := by
  rw [List.getD_eq_getElem _ _ (by simpa using hi),
    List.getD_eq_getElem _ _ hi]
  simp

/-- **C2**: branching a store on a decision point (not yet bound, as the
search discipline guarantees) produces exactly one child store per legal
option, in domain-declaration order; each child is the parent's bindings
plus that one new binding, and looks up identically to the parent at every
other key (the parent value itself is untouched). -/
theorem C2_branch_children (ctx : ParamContext) (p : Param)
    (h : ctxGet ctx p.key = none) :
    ∃ children, bifurcateParam ctx p = Except.ok children ∧
      children.length = p.options.length ∧
      (∀ i, i < p.options.length →
        children.getD i [] = (p.key, p.options.getD i (Opt.str "")) :: ctx) ∧
      (∀ c ∈ children,
        ctxGet c p.key ≠ none ∧
          ∀ k, k ≠ p.key → ctxGet c k = ctxGet ctx k) := by
  refine ⟨_, bifurcate_unbound ctx p h, by simp, ?_, ?_⟩
  · intro i hi
    exact getD_map_of_lt _ _ _ _ (Opt.str "") hi
  · intro c hc
    simp only [List.mem_map] at hc
    obtain ⟨o, _, rfl⟩ := hc
    refine ⟨by simp [ctxGet_cons], ?_⟩
    intro k hk
    rw [ctxGet_cons, if_neg (fun hh => hk hh.symm)]

/-- Witness for C2 at the opcode decision point of slot 0 on the empty
store. -/
theorem C2_branch_children_witness :
    ctxGet emptyContext (paramOp "node00:0").key = none ∧
    ∃ children,
      bifurcateParam emptyContext (paramOp "node00:0") = Except.ok children ∧
      children.length = (paramOp "node00:0").options.length ∧
      (∀ i, i < (paramOp "node00:0").options.length →
        children.getD i [] =
          ((paramOp "node00:0").key,
            (paramOp "node00:0").options.getD i (Opt.str "")) :: emptyContext) ∧
      (∀ c ∈ children,
        ctxGet c (paramOp "node00:0").key ≠ none ∧
          ∀ k, k ≠ (paramOp "node00:0").key →
            ctxGet c k = ctxGet emptyContext k) :=
  ⟨rfl, C2_branch_children emptyContext (paramOp "node00:0") rfl⟩

/-- **C9**: the concrete `add` raises `StateViolation` exactly when the
exact integer sum leaves `[-999, 999]`, and otherwise returns the exact
sum; any signal thrown during an emulator step (such as this one)
propagates out of the emulator run, and in particular a decided `ADD ACC`
whose doubling overflows makes the scenario step throw `StateViolation`. -/
theorem C9_add_bounds :
    (∀ a b : Int,
        concreteAdd a b = Except.error Sig.stateViolation ↔
          999 < a + b ∨ a + b < -999) ∧
    (∀ a b : Int, ¬(999 < a + b ∨ a + b < -999) →
        concreteAdd a b = Except.ok (a + b)) ∧
    (∀ {Value σ : Type} (program : ParamContext)
        (ser : Nat → Value → Value → String)
        (report : String → σ → Except (Sig × σ) σ)
        (inter : Interaction Value σ) (arith : Arith Value)
        (fuel : Nat) (st : NodeState Value) (s : σ) (e : Sig × σ),
        emulateStep program ser report inter arith st s = Except.error e →
        emulateRun program ser report inter arith (fuel + 1) st s = some e) ∧
    (∀ (ctx : ParamContext) (sc : Scenario) (st : NodeState Int)
        (rs rs1 : RunState),
        reportHook sc (jsonState st.pc st.acc st.bak) rs = Except.ok rs1 →
        ctxGet ctx (paramOp ("node00:" ++ toString st.pc)).key =
          some (Opt.str "ADD") →
        ctxGet ctx (argRead ("node00:" ++ toString st.pc)).key =
          some (Opt.str "ACC") →
        999 < st.acc + st.acc ∨ st.acc + st.acc < -999 →
        stepC ctx sc st rs = Except.error (Sig.stateViolation, rs1)) := by
  refine ⟨?_, ?_, ?_, ?_⟩
  · intro a b
    by_cases hcond : 999 < a + b ∨ a + b < -999
    · simp [concreteAdd, hcond]
    · simp [concreteAdd, hcond]
  · intro a b hcond
    simp [concreteAdd, hcond]
  · intro Value σ program ser report inter arith fuel st s e hstep
    simp [emulateRun, hstep]
  · intro ctx sc st rs rs1 hrep hop hread hrange
    unfold stepC emulateStep
    rw [hrep]
    simp only [loadParam, hop, hread, recvVal, concreteArith, withS,
      concreteAdd]
    simp [if_pos hrange]

/-- Witness for C9: `999 + 1` overflows, `1 + 2` is exact, a missing-opcode
step signal propagates out of a one-step run, and a decided `ADD ACC` with
`acc = 999` throws `StateViolation` out of the scenario step. -/
theorem C9_add_bounds_witness :
    (concreteAdd 999 1 = Except.error Sig.stateViolation ↔
      999 < (999 : Int) + 1 ∨ (999 : Int) + 1 < -999) ∧
    concreteAdd 1 2 = Except.ok (1 + 2) ∧
    stepC [("op-node00:0", Opt.str "ADD"), ("read-arg-node00:0", Opt.str "ACC")]
        { input := [], output := [0] } { pc := 0, acc := 999, bak := 0 }
        (initRun []) =
      Except.error (Sig.stateViolation,
        { inputCounter := 0, outputCounter := 0,
          encounters := ["[0,999,0];0;0"],
          targetable := [(" -> [0,999,0]", "0")] }) :=
  ⟨C9_add_bounds.1 999 1,
   C9_add_bounds.2.1 1 2 (by decide),
   C9_add_bounds.2.2.2
     [("op-node00:0", Opt.str "ADD"), ("read-arg-node00:0", Opt.str "ACC")]
     { input := [], output := [0] } { pc := 0, acc := 999, bak := 0 }
     (initRun [])
     { inputCounter := 0, outputCounter := 0,
       encounters := ["[0,999,0];0;0"],
       targetable := [(" -> [0,999,0]", "0")] }
     rfl rfl rfl (by decide)⟩

/-- **C10**: the constant decision point's domain is exactly `[0, 2]`;
under the concrete arithmetic a `sym` read resolves to the value bound for
`constantParam` at the instruction location; and every store produced by
branching a constant decision point binds it to `0` or `2`. -/
theorem C10_sym_constant :
    (∀ name, (constantParam name).options = [Opt.num 0, Opt.num 2]) ∧
    (∀ (ctx : ParamContext) (inter : Interaction Int RunState) (acc : Int)
        (place : String) (rs : RunState) (n : Int),
        ctxGet ctx (constantParam place).key = some (Opt.num n) →
        recvVal (concreteArith ctx) inter acc (Opt.str "sym") place rs =
          Except.ok (n, rs)) ∧
    (∀ (ctx : ParamContext) (place : String) (children : List ParamContext),
        bifurcateParam ctx (constantParam place) = Except.ok children →
        ∀ c ∈ children,
          ctxGet c (constantParam place).key = some (Opt.num 0) ∨
            ctxGet c (constantParam place).key = some (Opt.num 2)) := by
  refine ⟨fun _ => rfl, ?_, ?_⟩
  · intro ctx inter acc place rs n hbound
    simp [recvVal, concreteArith, loadParam, hbound, optToInt]
  · intro ctx place children hbif c hc
    have hub : ctxGet ctx (constantParam place).key = none :=
      bifurcate_ok_unbound hbif (Opt.num 0) [Opt.num 2] rfl
    rw [bifurcate_unbound ctx (constantParam place) hub] at hbif
    cases hbif
    simp only [constantParam, param, List.map_cons, List.map_nil,
      List.mem_cons, List.not_mem_nil, or_false] at hc
    rcases hc with rfl | rfl
    · left
      simp [ctxGet_cons, constantParam, param]
    · right
      simp [ctxGet_cons, constantParam, param]

/-- Witness for C10: a store binding the slot-0 constant to `2` makes the
`sym` read return `2`, and branching the empty store on that constant
yields bindings `0` and `2`. -/
theorem C10_sym_constant_witness :
    ctxGet [("const-node00:0", Opt.num 2)] (constantParam "node00:0").key =
      some (Opt.num 2) ∧
    recvVal (concreteArith [("const-node00:0", Opt.num 2)])
        (scenarioHooks { input := [], output := [] }) 5 (Opt.str "sym")
        "node00:0" (initRun []) = Except.ok (2, initRun []) ∧
    bifurcateParam emptyContext (constantParam "node00:0") =
      Except.ok [[("const-node00:0", Opt.num 0)], [("const-node00:0", Opt.num 2)]] ∧
    (∀ c ∈ [[("const-node00:0", Opt.num 0)], [("const-node00:0", Opt.num 2)]],
      ctxGet c (constantParam "node00:0").key = some (Opt.num 0) ∨
        ctxGet c (constantParam "node00:0").key = some (Opt.num 2)) :=
  ⟨rfl,
   C10_sym_constant.2.1 [("const-node00:0", Opt.num 2)]
     (scenarioHooks { input := [], output := [] }) 5 "node00:0" (initRun []) 2
     rfl,
   rfl,
   C10_sym_constant.2.2 emptyContext "node00:0"
     [[("const-node00:0", Opt.num 0)], [("const-node00:0", Opt.num 2)]] rfl⟩

theorem detailStateOf_encounters (sc : Scenario) (rs : RunState) (e : List String)
    (r : String) :
    detailStateOf sc { rs with encounters := e } r = detailStateOf sc rs r := rfl

theorem targetOf_encounters (sc : Scenario) (rs : RunState) (e : List String) :
    targetOf sc { rs with encounters := e } = targetOf sc rs := rfl

/-- **C4 counterexample**: with an exhausted expected-output list, sending on
the designated output port throws the plain fatal `Error("unreachable")`
(`main.ts` line 252), not a `StateViolationError` as the claim states. -/
theorem C4_counterexample :
    sendHook { input := [], output := [] } (Opt.str "DOWN") 5 (initRun []) =
      Except.error (Sig.fatal "unreachable", initRun []) ∧
    Sig.fatal "unreachable" ≠ Sig.stateViolation := by
  decide

/-- **C4 amended**: the send interaction of `solve` raises `StateViolation`
on a port other than DOWN and on a mismatched value; excess output (cursor
at or past the scenario's expected length) raises the *fatal* error
`"unreachable"` that propagates out of the whole search, not a
`StateViolation`; an exact match advances the output cursor; and reaching
the full expected output signals `Done`. -/
theorem C4_send_interaction (sc : Scenario) (port : Opt) (v : Int)
    (rs : RunState) :
    (port ≠ Opt.str "DOWN" →
      sendHook sc port v rs = Except.error (Sig.stateViolation, rs)) ∧
    (port = Opt.str "DOWN" → sc.output.length ≤ rs.outputCounter →
      sendHook sc port v rs = Except.error (Sig.fatal "unreachable", rs)) ∧
    (port = Opt.str "DOWN" → rs.outputCounter < sc.output.length →
      v ≠ sc.output.getD rs.outputCounter 0 →
      sendHook sc port v rs = Except.error (Sig.stateViolation, rs)) ∧
    (port = Opt.str "DOWN" → rs.outputCounter < sc.output.length →
      v = sc.output.getD rs.outputCounter 0 →
      rs.outputCounter + 1 < sc.output.length →
      sendHook sc port v rs =
        Except.ok { rs with outputCounter := rs.outputCounter + 1 }) ∧
    (port = Opt.str "DOWN" → rs.outputCounter < sc.output.length →
      v = sc.output.getD rs.outputCounter 0 →
      sc.output.length ≤ rs.outputCounter + 1 →
      sendHook sc port v rs =
        Except.error (Sig.done,
          { rs with outputCounter := rs.outputCounter + 1 })) := by
  refine ⟨?_, ?_, ?_, ?_, ?_⟩
  · intro h1
    simp only [sendHook]
    rw [if_pos h1]
  · intro h1 h2
    simp only [sendHook]
    rw [if_neg (by simp [h1]), if_pos h2]
  · intro h1 h2 h3
    simp only [sendHook]
    rw [if_neg (by simp [h1]), if_neg (by omega), if_pos h3]
  · intro h1 h2 h3 h4
    simp [sendHook, h1, h3, Nat.not_le.mpr h2, Nat.not_le.mpr h4]
  · intro h1 h2 h3 h4
    simp [sendHook, h1, h3, Nat.not_le.mpr h2, h4]

/-- Witness for C4: the five send situations at concrete inputs. -/
theorem C4_send_interaction_witness :
    sendHook { input := [], output := [7, 8] } (Opt.str "UP") 7 (initRun []) =
      Except.error (Sig.stateViolation, initRun []) ∧
    sendHook { input := [], output := [] } (Opt.str "DOWN") 7 (initRun []) =
      Except.error (Sig.fatal "unreachable", initRun []) ∧
    sendHook { input := [], output := [7, 8] } (Opt.str "DOWN") 9 (initRun []) =
      Except.error (Sig.stateViolation, initRun []) ∧
    sendHook { input := [], output := [7, 8] } (Opt.str "DOWN") 7 (initRun []) =
      Except.ok { (initRun []) with outputCounter := 0 + 1 } ∧
    sendHook { input := [], output := [7] } (Opt.str "DOWN") 7 (initRun []) =
      Except.error (Sig.done, { (initRun []) with outputCounter := 0 + 1 }) :=
  ⟨(C4_send_interaction _ _ _ _).1 (by decide),
   (C4_send_interaction { input := [], output := [] } _ 7 _).2.1 rfl
     (by decide),
   (C4_send_interaction { input := [], output := [7, 8] } _ 9 _).2.2.1 rfl
     (by decide) (by decide),
   (C4_send_interaction { input := [], output := [7, 8] } _ 7 _).2.2.2.1 rfl
     (by decide) (by decide) (by decide),
   (C4_send_interaction { input := [], output := [7] } _ 7 _).2.2.2.2 rfl
     (by decide) (by decide) (by decide)⟩

/-- **C7 counterexample**: a report whose composite key is seen for the
*first* time in the run still raises `StateViolation` when the
cross-scenario `targetable` entry for its detail state disagrees — so
"raises exactly when the key was already seen" fails.  The first event
(machine state `"m"`, one input consumed, no output yet) records detail
state `" -> m" ↦ "1;1"`; after one output is produced the same machine
state reports a fresh composite key `"m;1;1"` but conflicts. -/
theorem C7_counterexample :
    reportHook { input := [5], output := [1, 1] } "m"
        { inputCounter := 1, outputCounter := 0, encounters := [],
          targetable := [] } =
      Except.ok
        { inputCounter := 1, outputCounter := 0, encounters := ["m;1;0"],
          targetable := [(" -> m", "1;1")] } ∧
    fullReport "m"
        { inputCounter := 1, outputCounter := 1, encounters := ["m;1;0"],
          targetable := [(" -> m", "1;1")] } ∉ ["m;1;0"] ∧
    reportHook { input := [5], output := [1, 1] } "m"
        { inputCounter := 1, outputCounter := 1, encounters := ["m;1;0"],
          targetable := [(" -> m", "1;1")] } =
      Except.error (Sig.stateViolation,
        { inputCounter := 1, outputCounter := 1,
          encounters := ["m;1;1", "m;1;0"],
          targetable := [(" -> m", "1;1")] }) := by
  decide

/-- **C7 amended**: within one scenario run the report hook raises
`StateViolation` when the composite key (machine state, remaining-input
count, remaining-output count) was already seen in the run's `encounters`
set; a first-seen key is recorded, after which the cross-scenario
detail-state check may still raise `StateViolation`, and otherwise
execution continues. -/
theorem C7_loop_detection (sc : Scenario) (report : String) (rs : RunState) :
    (fullReport report rs ∈ rs.encounters →
      reportHook sc report rs = Except.error (Sig.stateViolation, rs)) ∧
    (fullReport report rs ∉ rs.encounters →
      (∀ t, tgtGet rs.targetable (detailStateOf sc rs report) = some t →
        t ≠ targetOf sc rs →
        reportHook sc report rs = Except.error (Sig.stateViolation,
          { rs with encounters := fullReport report rs :: rs.encounters })) ∧
      (tgtGet rs.targetable (detailStateOf sc rs report) = none →
        reportHook sc report rs = Except.ok
          { rs with
            encounters := fullReport report rs :: rs.encounters
            targetable := tgtSet rs.targetable (detailStateOf sc rs report)
              (targetOf sc rs) }) ∧
      (tgtGet rs.targetable (detailStateOf sc rs report) =
          some (targetOf sc rs) →
        reportHook sc report rs = Except.ok
          { rs with
            encounters := fullReport report rs :: rs.encounters
            targetable := tgtSet rs.targetable (detailStateOf sc rs report)
              (targetOf sc rs) })) := by
  constructor
  · intro hseen
    simp only [reportHook]
    rw [if_pos hseen]
  · intro hfresh
    refine ⟨?_, ?_, ?_⟩
    · intro t htgt hne
      simp only [reportHook]
      rw [if_neg hfresh]
      simp only [detailStateOf_encounters, targetOf_encounters]
      rw [htgt]
      simp only []
      rw [if_pos hne]
    · intro htgt
      simp only [reportHook]
      rw [if_neg hfresh]
      simp only [detailStateOf_encounters, targetOf_encounters]
      rw [htgt]
    · intro htgt
      simp only [reportHook]
      rw [if_neg hfresh]
      simp only [detailStateOf_encounters, targetOf_encounters]
      rw [htgt]
      simp only []
      rw [if_neg (by simp)]

/-- Witness for C7 at concrete run states: a repeated key violates, a fresh
key with no recorded detail state is recorded and continues. -/
theorem C7_loop_detection_witness :
    fullReport "k"
        { inputCounter := 0, outputCounter := 0, encounters := ["k;0;0"],
          targetable := [] } ∈ ["k;0;0"] ∧
    reportHook { input := [3], output := [4] } "k"
        { inputCounter := 0, outputCounter := 0, encounters := ["k;0;0"],
          targetable := [] } =
      Except.error (Sig.stateViolation,
        { inputCounter := 0, outputCounter := 0, encounters := ["k;0;0"],
          targetable := [] }) ∧
    reportHook { input := [3], output := [4] } "k" (initRun []) =
      Except.ok
        { (initRun []) with
          encounters := fullReport "k" (initRun []) :: []
          targetable := tgtSet []
            (detailStateOf { input := [3], output := [4] } (initRun []) "k")
            (targetOf { input := [3], output := [4] } (initRun [])) } :=
  ⟨by decide,
   (C7_loop_detection { input := [3], output := [4] } "k" _).1 (by decide),
   ((C7_loop_detection { input := [3], output := [4] } "k"
       (initRun [])).2 (by decide)).2.1 rfl⟩

/-- **C5 counterexample**: two report events whose claimed detail-state keys
differ (the remaining expected output lengths are 2 and 1) nevertheless
collide in the recorded `targetable` map — the second raises
`StateViolation` even though, were the key composed as the claim states,
it would be a fresh key with nothing to conflict with.  The recorded key
therefore does not include the remaining expected output length. -/
theorem C5_counterexample :
    specDetailKey { input := [5], output := [1, 1] }
        { inputCounter := 1, outputCounter := 0, encounters := [],
          targetable := [] } "m" ≠
      specDetailKey { input := [5], output := [1, 1] }
        { inputCounter := 1, outputCounter := 1, encounters := ["m;1;0"],
          targetable := [(" -> m", "1;1")] } "m" ∧
    reportHook { input := [5], output := [1, 1] } "m"
        { inputCounter := 1, outputCounter := 0, encounters := [],
          targetable := [] } =
      Except.ok
        { inputCounter := 1, outputCounter := 0, encounters := ["m;1;0"],
          targetable := [(" -> m", "1;1")] } ∧
    reportHook { input := [5], output := [1, 1] } "m"
        { inputCounter := 1, outputCounter := 1, encounters := ["m;1;0"],
          targetable := [(" -> m", "1;1")] } =
      Except.error (Sig.stateViolation,
        { inputCounter := 1, outputCounter := 1,
          encounters := ["m;1;1", "m;1;0"],
          targetable := [(" -> m", "1;1")] }) := by
  refine ⟨by decide, by decide, by decide⟩

/-- **C5 amended**: the detail-state key recorded by the driver consists of
the remaining expected input and the reported machine state only — it is
invariant under the output cursor — and it is mapped to the remaining
expected output; two report events with the same recorded key but
different remaining expected outputs raise `StateViolation` (on a fresh
composite loop key), and a key not yet recorded is stored mapped to the
current remaining expected output. -/
theorem C5_detail_state (sc : Scenario) (report : String) (rs : RunState)
    (hfresh : fullReport report rs ∉ rs.encounters) :
    (∀ k, detailStateOf sc { rs with outputCounter := k } report =
        detailStateOf sc rs report) ∧
    (∀ t, tgtGet rs.targetable (detailStateOf sc rs report) = some t →
      t ≠ targetOf sc rs →
      reportHook sc report rs = Except.error (Sig.stateViolation,
        { rs with encounters := fullReport report rs :: rs.encounters })) ∧
    (tgtGet rs.targetable (detailStateOf sc rs report) = none →
      reportHook sc report rs = Except.ok
        { rs with
          encounters := fullReport report rs :: rs.encounters
          targetable := tgtSet rs.targetable (detailStateOf sc rs report)
            (targetOf sc rs) }) := by
  refine ⟨fun _ => rfl, ?_, ?_⟩
  · intro t htgt hne
    simp only [reportHook]
    rw [if_neg hfresh]
    simp only [detailStateOf_encounters, targetOf_encounters]
    rw [htgt]
    simp only []
    rw [if_pos hne]
  · intro htgt
    simp only [reportHook]
    rw [if_neg hfresh]
    simp only [detailStateOf_encounters, targetOf_encounters]
    rw [htgt]

/-- Witness for C5: a same-key conflict at concrete states (differing only
in machine state freshness) raises `StateViolation`, and a fresh detail
state is recorded. -/
theorem C5_detail_state_witness :
    fullReport "w"
        { inputCounter := 0, outputCounter := 0, encounters := [],
          targetable := [("3 -> w", "9")] } ∉ ([] : List String) ∧
    reportHook { input := [3], output := [4] } "w"
        { inputCounter := 0, outputCounter := 0, encounters := [],
          targetable := [("3 -> w", "9")] } =
      Except.error (Sig.stateViolation,
        { inputCounter := 0, outputCounter := 0, encounters := ["w;0;0"],
          targetable := [("3 -> w", "9")] }) ∧
    reportHook { input := [3], output := [4] } "w" (initRun []) =
      Except.ok
        { (initRun []) with
          encounters := ["w;0;0"]
          targetable := tgtSet []
            (detailStateOf { input := [3], output := [4] } (initRun []) "w")
            (targetOf { input := [3], output := [4] } (initRun [])) } :=
  ⟨by decide,
   (C5_detail_state { input := [3], output := [4] } "w"
       { inputCounter := 0, outputCounter := 0, encounters := [],
         targetable := [("3 -> w", "9")] } (by decide)).2.1 "9" rfl
     (by decide),
   (C5_detail_state { input := [3], output := [4] } "w" (initRun [])
       (by decide)).2.2 rfl⟩

/-- **C3 counterexample**: a decided `MOV sym NIL` instruction (constant
bound to `0`) executes without aborting: the step succeeds and advances the
program counter.  The redundancy test `typeof read === "number" || read ===
"ACC"` can never fire for the string `"sym"`, so `MOV sym -> NIL` is not
pruned. -/
theorem C3_counterexample :
    stepC
        [("op-node00:0", Opt.str "MOV"), ("read-arg-node00:0", Opt.str "sym"),
         ("write-arg-node00:0", Opt.str "NIL"),
         ("const-node00:0", Opt.num 0)]
        { input := [5], output := [1, 1] } initNode (initRun []) =
      Except.ok ({ pc := 1, acc := 0, bak := 0 },
        { inputCounter := 0, outputCounter := 0,
          encounters := ["[0,0,0];0;0"],
          targetable := [("5 -> [0,0,0]", "1;1")] }) ∧
    emuStep
        { op := fun _ => "MOV", src := fun _ => "sym", dst := fun _ => "NIL" }
        jsonState report0 inter0 arith0 { pc := 0, acc := 0, bak := 0 } () =
      Except.ok ({ pc := 1, acc := 0, bak := 0 }, ()) := by
  refine ⟨by decide, by decide⟩

/-- **C3 amended**: a `MOV` whose destination is `NIL` and whose source is
the *accumulator* aborts: with `StateViolation` in the `main.ts` emulator
(which is what `solve` uses, so such a candidate is discarded), and with
the dedicated `Redundancy` signal in the `emu.ts` emulator.  A source of
`"sym"` is not caught by either (see the counterexample). -/
theorem C3_mov_acc_nil_pruned :
    (∀ {Value σ : Type} (ser : Nat → Value → Value → String)
        (report : String → σ → Except (Sig × σ) σ)
        (inter : Interaction Value σ) (arith : Arith Value)
        (ctx : ParamContext) (st : NodeState Value) (s s1 : σ),
        report (ser st.pc st.acc st.bak) s = Except.ok s1 →
        ctxGet ctx (paramOp ("node00:" ++ toString st.pc)).key =
          some (Opt.str "MOV") →
        ctxGet ctx (argRead ("node00:" ++ toString st.pc)).key =
          some (Opt.str "ACC") →
        ctxGet ctx (argWrite ("node00:" ++ toString st.pc)).key =
          some (Opt.str "NIL") →
        emulateStep ctx ser report inter arith st s =
          Except.error (Sig.stateViolation, s1)) ∧
    (∀ {Value σ : Type} (prog : EmuProgram)
        (ser : Nat → Value → Value → String)
        (report : String → σ → Except (Sig × σ) σ)
        (inter : Interaction Value σ) (arith : Arith Value)
        (st : NodeState Value) (s s1 : σ),
        report (ser st.pc st.acc st.bak) s = Except.ok s1 →
        prog.op st.pc = "MOV" → prog.src st.pc = "ACC" →
        prog.dst st.pc = "NIL" →
        emuStep prog ser report inter arith st s =
          Except.error (Sig.redundancy, s1)) := by
  constructor
  · intro Value σ ser report inter arith ctx st s s1 hrep hop hread hwrite
    unfold emulateStep
    rw [hrep]
    simp only [loadParam, hop, hread, hwrite, recvVal, sendVal, withS, isNum]
    simp
  · intro Value σ prog ser report inter arith st s s1 hrep hop hsrc hdst
    unfold emuStep
    rw [hrep, hop, hsrc, hdst]
    simp only [recvVal, sendVal, withS, isNum]
    simp

/-- Witness for C3 amended: a concrete decided `MOV ACC NIL` at slot 0 is
rejected by both emulators. -/
theorem C3_mov_acc_nil_pruned_witness :
    emulateStep
        [("op-node00:0", Opt.str "MOV"), ("read-arg-node00:0", Opt.str "ACC"),
         ("write-arg-node00:0", Opt.str "NIL")]
        jsonState report0 inter0 arith0 { pc := 0, acc := 4, bak := 0 } () =
      Except.error (Sig.stateViolation, ()) ∧
    emuStep
        { op := fun _ => "MOV", src := fun _ => "ACC", dst := fun _ => "NIL" }
        jsonState report0 inter0 arith0 { pc := 0, acc := 4, bak := 0 } () =
      Except.error (Sig.redundancy, ()) :=
  ⟨C3_mov_acc_nil_pruned.1 jsonState report0 inter0 arith0 _ _ () () rfl rfl
     rfl rfl,
   C3_mov_acc_nil_pruned.2
     { op := fun _ => "MOV", src := fun _ => "ACC", dst := fun _ => "NIL" }
     jsonState report0 inter0 arith0 _ () () rfl rfl rfl rfl⟩

/-- **C1 counterexample**: the decided instruction `MOV ACC NIL` does not
step according to the opcode table (`v <- read(src); write(dst, v)` then
`pc <- (pc+1) % MAX_INSTRS`): the step aborts with `StateViolation` (the
redundancy rule) instead of completing and advancing the program counter. -/
theorem C1_counterexample :
    stepC
        [("op-node00:0", Opt.str "MOV"), ("read-arg-node00:0", Opt.str "ACC"),
         ("write-arg-node00:0", Opt.str "NIL")]
        { input := [], output := [0] } initNode (initRun []) =
      Except.error (Sig.stateViolation,
        { inputCounter := 0, outputCounter := 0,
          encounters := ["[0,0,0];0;0"],
          targetable := [(" -> [0,0,0]", "0")] }) := by
  decide

/-- **C1 amended**: for every value domain, every decided instruction whose
domain/interaction operations succeed — `MOV` additionally not being the
redundancy-pruned `MOV {ACC, numeric} -> NIL` shape — transforms the
registers exactly as the opcode table states and advances the program
counter by one modulo `MAX_INSTRS`:
ADD sets `acc` to `add(acc, read(src))`; SUB to `add(acc, neg(read(src)))`;
MOV writes `read(src)` to `dst` (`NIL` discards, `ACC` assigns, a port
sends); NEG sets `acc` to `neg(acc)`; SWP exchanges `acc` and `bak`; SAV
copies `acc` to `bak`; NOP changes no register. -/
theorem C1_table_semantics :
    (∀ {Value σ : Type} (ser : Nat → Value → Value → String)
        (report : String → σ → Except (Sig × σ) σ)
        (inter : Interaction Value σ) (arith : Arith Value)
        (ctx : ParamContext) (st : NodeState Value) (s s1 : σ)
        (src : Opt) (v acc1 : Value) (s2 : σ),
        report (ser st.pc st.acc st.bak) s = Except.ok s1 →
        ctxGet ctx (paramOp ("node00:" ++ toString st.pc)).key =
          some (Opt.str "ADD") →
        ctxGet ctx (argRead ("node00:" ++ toString st.pc)).key = some src →
        recvVal arith inter st.acc src ("node00:" ++ toString st.pc) s1 =
          Except.ok (v, s2) →
        arith.add st.acc v = Except.ok acc1 →
        emulateStep ctx ser report inter arith st s = Except.ok
          ({ pc := (st.pc + 1) % MAX_INSTRS, acc := acc1, bak := st.bak },
            s2)) ∧
    (∀ {Value σ : Type} (ser : Nat → Value → Value → String)
        (report : String → σ → Except (Sig × σ) σ)
        (inter : Interaction Value σ) (arith : Arith Value)
        (ctx : ParamContext) (st : NodeState Value) (s s1 : σ)
        (src : Opt) (v nv acc1 : Value) (s2 : σ),
        report (ser st.pc st.acc st.bak) s = Except.ok s1 →
        ctxGet ctx (paramOp ("node00:" ++ toString st.pc)).key =
          some (Opt.str "SUB") →
        ctxGet ctx (argRead ("node00:" ++ toString st.pc)).key = some src →
        recvVal arith inter st.acc src ("node00:" ++ toString st.pc) s1 =
          Except.ok (v, s2) →
        arith.neg v = Except.ok nv →
        arith.add st.acc nv = Except.ok acc1 →
        emulateStep ctx ser report inter arith st s = Except.ok
          ({ pc := (st.pc + 1) % MAX_INSTRS, acc := acc1, bak := st.bak },
            s2)) ∧
    (∀ {Value σ : Type} (ser : Nat → Value → Value → String)
        (report : String → σ → Except (Sig × σ) σ)
        (inter : Interaction Value σ) (arith : Arith Value)
        (ctx : ParamContext) (st : NodeState Value) (s s1 : σ)
        (src dst : Opt) (v acc1 : Value) (s2 s3 : σ),
        report (ser st.pc st.acc st.bak) s = Except.ok s1 →
        ctxGet ctx (paramOp ("node00:" ++ toString st.pc)).key =
          some (Opt.str "MOV") →
        ctxGet ctx (argRead ("node00:" ++ toString st.pc)).key = some src →
        recvVal arith inter st.acc src ("node00:" ++ toString st.pc) s1 =
          Except.ok (v, s2) →
        ctxGet ctx (argWrite ("node00:" ++ toString st.pc)).key = some dst →
        sendVal inter dst v st.acc s2 = Except.ok (acc1, s3) →
        ¬(dst = Opt.str "NIL" ∧ (isNum src = true ∨ src = Opt.str "ACC")) →
        emulateStep ctx ser report inter arith st s = Except.ok
          ({ pc := (st.pc + 1) % MAX_INSTRS, acc := acc1, bak := st.bak },
            s3)) ∧
    (∀ {Value σ : Type} (ser : Nat → Value → Value → String)
        (report : String → σ → Except (Sig × σ) σ)
        (inter : Interaction Value σ) (arith : Arith Value)
        (ctx : ParamContext) (st : NodeState Value) (s s1 : σ)
        (acc1 : Value),
        report (ser st.pc st.acc st.bak) s = Except.ok s1 →
        ctxGet ctx (paramOp ("node00:" ++ toString st.pc)).key =
          some (Opt.str "NEG") →
        arith.neg st.acc = Except.ok acc1 →
        emulateStep ctx ser report inter arith st s = Except.ok
          ({ pc := (st.pc + 1) % MAX_INSTRS, acc := acc1, bak := st.bak },
            s1)) ∧
    (∀ {Value σ : Type} (ser : Nat → Value → Value → String)
        (report : String → σ → Except (Sig × σ) σ)
        (inter : Interaction Value σ) (arith : Arith Value)
        (ctx : ParamContext) (st : NodeState Value) (s s1 : σ),
        report (ser st.pc st.acc st.bak) s = Except.ok s1 →
        ctxGet ctx (paramOp ("node00:" ++ toString st.pc)).key =
          some (Opt.str "SWP") →
        emulateStep ctx ser report inter arith st s = Except.ok
          ({ pc := (st.pc + 1) % MAX_INSTRS, acc := st.bak, bak := st.acc },
            s1)) ∧
    (∀ {Value σ : Type} (ser : Nat → Value → Value → String)
        (report : String → σ → Except (Sig × σ) σ)
        (inter : Interaction Value σ) (arith : Arith Value)
        (ctx : ParamContext) (st : NodeState Value) (s s1 : σ),
        report (ser st.pc st.acc st.bak) s = Except.ok s1 →
        ctxGet ctx (paramOp ("node00:" ++ toString st.pc)).key =
          some (Opt.str "SAV") →
        emulateStep ctx ser report inter arith st s = Except.ok
          ({ pc := (st.pc + 1) % MAX_INSTRS, acc := st.acc, bak := st.acc },
            s1)) ∧
    (∀ {Value σ : Type} (ser : Nat → Value → Value → String)
        (report : String → σ → Except (Sig × σ) σ)
        (inter : Interaction Value σ) (arith : Arith Value)
        (ctx : ParamContext) (st : NodeState Value) (s s1 : σ),
        report (ser st.pc st.acc st.bak) s = Except.ok s1 →
        ctxGet ctx (paramOp ("node00:" ++ toString st.pc)).key =
          some (Opt.str "NOP") →
        emulateStep ctx ser report inter arith st s = Except.ok
          ({ pc := (st.pc + 1) % MAX_INSTRS, acc := st.acc, bak := st.bak },
            s1)) := by
  refine ⟨?_, ?_, ?_, ?_, ?_, ?_, ?_⟩
  · intro Value σ ser report inter arith ctx st s s1 src v acc1 s2 hrep hop
      hread hrecv hadd
    unfold emulateStep
    rw [hrep]
    simp only [loadParam, hop, hread, withS]
    simp only [hrecv, hadd]
  · intro Value σ ser report inter arith ctx st s s1 src v nv acc1 s2 hrep
      hop hread hrecv hneg hadd
    unfold emulateStep
    rw [hrep]
    simp only [loadParam, hop, hread, withS]
    simp only [hrecv, hneg, hadd]
  · intro Value σ ser report inter arith ctx st s s1 src dst v acc1 s2 s3
      hrep hop hread hrecv hwrite hsend hnr
    unfold emulateStep
    rw [hrep]
    simp only [loadParam, hop, hread, hwrite, withS]
    simp only [hrecv, hsend]
    rw [if_neg hnr]
  · intro Value σ ser report inter arith ctx st s s1 acc1 hrep hop hneg
    unfold emulateStep
    rw [hrep]
    simp only [loadParam, hop, withS]
    simp only [hneg]
  · intro Value σ ser report inter arith ctx st s s1 hrep hop
    unfold emulateStep
    rw [hrep]
    simp only [loadParam, hop, withS]
  · intro Value σ ser report inter arith ctx st s s1 hrep hop
    unfold emulateStep
    rw [hrep]
    simp only [loadParam, hop, withS]
  · intro Value σ ser report inter arith ctx st s s1 hrep hop
    unfold emulateStep
    rw [hrep]
    simp only [loadParam, hop, withS]

/-- Witness for C1 amended: each opcode stepped at a concrete decided slot
over the trivial `Int` domain. -/
theorem C1_table_semantics_witness :
    emulateStep [("op-node00:0", Opt.str "ADD"),
        ("read-arg-node00:0", Opt.str "ACC")]
      jsonState report0 inter0 arith0 { pc := 0, acc := 3, bak := 9 } () =
      Except.ok ({ pc := (0 + 1) % MAX_INSTRS, acc := 6, bak := 9 }, ()) ∧
    emulateStep [("op-node00:0", Opt.str "SUB"),
        ("read-arg-node00:0", Opt.str "ACC")]
      jsonState report0 inter0 arith0 { pc := 0, acc := 3, bak := 9 } () =
      Except.ok ({ pc := (0 + 1) % MAX_INSTRS, acc := 0, bak := 9 }, ()) ∧
    emulateStep [("op-node00:0", Opt.str "MOV"),
        ("read-arg-node00:0", Opt.str "ACC"),
        ("write-arg-node00:0", Opt.str "DOWN")]
      jsonState report0 inter0 arith0 { pc := 0, acc := 3, bak := 9 } () =
      Except.ok ({ pc := (0 + 1) % MAX_INSTRS, acc := 3, bak := 9 }, ()) ∧
    emulateStep [("op-node00:0", Opt.str "NEG")]
      jsonState report0 inter0 arith0 { pc := 0, acc := 3, bak := 9 } () =
      Except.ok ({ pc := (0 + 1) % MAX_INSTRS, acc := -3, bak := 9 }, ()) ∧
    emulateStep [("op-node00:0", Opt.str "SWP")]
      jsonState report0 inter0 arith0 { pc := 0, acc := 3, bak := 9 } () =
      Except.ok ({ pc := (0 + 1) % MAX_INSTRS, acc := 9, bak := 3 }, ()) ∧
    emulateStep [("op-node00:0", Opt.str "SAV")]
      jsonState report0 inter0 arith0 { pc := 0, acc := 3, bak := 9 } () =
      Except.ok ({ pc := (0 + 1) % MAX_INSTRS, acc := 3, bak := 3 }, ()) ∧
    emulateStep [("op-node00:0", Opt.str "NOP")]
      jsonState report0 inter0 arith0 { pc := 0, acc := 3, bak := 9 } () =
      Except.ok ({ pc := (0 + 1) % MAX_INSTRS, acc := 3, bak := 9 }, ()) :=
  ⟨C1_table_semantics.1 jsonState report0 inter0 arith0 _ _ () ()
     (Opt.str "ACC") 3 6 () rfl rfl rfl rfl rfl,
   C1_table_semantics.2.1 jsonState report0 inter0 arith0 _ _ () ()
     (Opt.str "ACC") 3 (-3) 0 () rfl rfl rfl rfl rfl rfl,
   C1_table_semantics.2.2.1 jsonState report0 inter0 arith0 _ _ () ()
     (Opt.str "ACC") (Opt.str "DOWN") 3 3 () () rfl rfl rfl rfl rfl rfl
     (by decide),
   C1_table_semantics.2.2.2.1 jsonState report0 inter0 arith0 _ _ () ()
     (-3) rfl rfl rfl,
   C1_table_semantics.2.2.2.2.1 jsonState report0 inter0 arith0 _ _ () ()
     rfl rfl,
   C1_table_semantics.2.2.2.2.2.1 jsonState report0 inter0 arith0 _ _ () ()
     rfl rfl,
   C1_table_semantics.2.2.2.2.2.2 jsonState report0 inter0 arith0 _ _ () ()
     rfl rfl⟩

/-! ## Canonical missing-decision analysis

The sequence of decision points the emulator consults at a given slot is
determined by the store alone (the opcode binding decides whether a read
operand, a constant and a write operand are consulted, in that order), so
the first unbound decision point a run can report missing is a function of
the store.  This underlies both the branch-point analysis (C6) and the
termination argument (C8). -/

/-- The first decision point the step at slot `k` consults that is unbound
in `ctx`, in consultation order (opcode; then for ADD/SUB/MOV the read
operand; then the constant if the read operand is `sym`; then for MOV the
write operand), or `none` if every consulted point is bound. -/
def firstUnboundAt (ctx : ParamContext) (k : Nat) : Option Param :=
  match ctxGet ctx (paramOp ("node00:" ++ toString k)).key with
  | none => some (paramOp ("node00:" ++ toString k))
  | some op =>
    if op = Opt.str "ADD" ∨ op = Opt.str "SUB" ∨ op = Opt.str "MOV" then
      match ctxGet ctx (argRead ("node00:" ++ toString k)).key with
      | none => some (argRead ("node00:" ++ toString k))
      | some src =>
        if src = Opt.str "sym" ∧
            ctxGet ctx (constantParam ("node00:" ++ toString k)).key = none
        then some (constantParam ("node00:" ++ toString k))
        else if op = Opt.str "MOV" ∧
            ctxGet ctx (argWrite ("node00:" ++ toString k)).key = none
        then some (argWrite ("node00:" ++ toString k))
        else none
    else none

/-- The unique decision point that any scenario run of the candidate `ctx`
can report missing: the first unbound consulted point of the first slot
(in visiting order `0, 1, 2`) that has one. -/
def canonicalMissing (ctx : ParamContext) : Option Param :=
  match firstUnboundAt ctx 0 with
  | some p => some p
  | none =>
    match firstUnboundAt ctx 1 with
    | some p => some p
    | none => firstUnboundAt ctx 2

theorem loadParam_ok {ctx : ParamContext} {p : Param} {v : Opt}
    (h : loadParam ctx p = Except.ok v) : ctxGet ctx p.key = some v := by
  unfold loadParam at h
  split at h
  · cases h
    assumption
  · cases h

theorem loadParam_missing {ctx : ParamContext} {p : Param} {e : Sig}
    (h : loadParam ctx p = Except.error e) :
    ctxGet ctx p.key = none ∧ e = Sig.missing p := by
  unfold loadParam at h
  split at h
  · cases h
  · cases h
    exact ⟨by assumption, rfl⟩

theorem withS_ok {σ α : Type} {s : σ} {x : Except Sig α} {a : α}
    (h : withS s x = Except.ok a) : x = Except.ok a := by
  cases x with
  | ok b => cases h; rfl
  | error e => cases h

theorem withS_error {σ α : Type} {s : σ} {x : Except Sig α} {e : Sig}
    {s1 : σ} (h : withS s x = Except.error (e, s1)) :
    x = Except.error e ∧ s1 = s := by
  cases x with
  | ok b => cases h
  | error e2 =>
    unfold withS at h
    cases h
    exact ⟨rfl, rfl⟩

/-- Exhaustive behavior of the concrete `recv` resolution: accumulator,
symbol (constant bound / unbound / non-numeric), or port delegation. -/
theorem recvValC_cases (ctx : ParamContext) (sc : Scenario) (acc : Int)
    (src : Opt) (place : String) (rs : RunState) :
    (src = Opt.str "ACC" ∧
      recvVal (concreteArith ctx) (scenarioHooks sc) acc src place rs =
        Except.ok (acc, rs)) ∨
    (src = Opt.str "sym" ∧ ∃ n,
      ctxGet ctx (constantParam place).key = some (Opt.num n) ∧
      recvVal (concreteArith ctx) (scenarioHooks sc) acc src place rs =
        Except.ok (n, rs)) ∨
    (src = Opt.str "sym" ∧
      ctxGet ctx (constantParam place).key = none ∧
      recvVal (concreteArith ctx) (scenarioHooks sc) acc src place rs =
        Except.error (Sig.missing (constantParam place), rs)) ∨
    (src = Opt.str "sym" ∧
      (∃ t, ctxGet ctx (constantParam place).key = some (Opt.str t)) ∧
      recvVal (concreteArith ctx) (scenarioHooks sc) acc src place rs =
        Except.error (Sig.fatal "constant is not a number", rs)) ∨
    (src ≠ Opt.str "ACC" ∧ src ≠ Opt.str "sym" ∧
      (recvVal (concreteArith ctx) (scenarioHooks sc) acc src place rs =
          Except.error (Sig.stateViolation, rs) ∨
       (recvVal (concreteArith ctx) (scenarioHooks sc) acc src place rs =
          Except.error (Sig.stuck, rs) ∧
        sc.input.length ≤ rs.inputCounter) ∨
       (∃ v, recvVal (concreteArith ctx) (scenarioHooks sc) acc src place rs =
          Except.ok (v, { rs with inputCounter := rs.inputCounter + 1 }) ∧
        rs.inputCounter < sc.input.length ∧
        v = sc.input.getD rs.inputCounter 0))) := by
  by_cases hacc : src = Opt.str "ACC"
  · left
    exact ⟨hacc, by simp [recvVal, hacc]⟩
  · by_cases hsym : src = Opt.str "sym"
    · rcases hget : ctxGet ctx (constantParam place).key with _ | v
      · right; right; left
        refine ⟨hsym, rfl, ?_⟩
        simp [recvVal, hsym, hacc, concreteArith, loadParam, hget]
      · rcases v with t | n
        · right; right; right; left
          refine ⟨hsym, ⟨t, rfl⟩, ?_⟩
          simp [recvVal, hsym, hacc, concreteArith, loadParam, hget, optToInt]
        · right; left
          refine ⟨hsym, n, rfl, ?_⟩
          simp [recvVal, hsym, hacc, concreteArith, loadParam, hget, optToInt]
    · right; right; right; right
      refine ⟨hacc, hsym, ?_⟩
      by_cases hup : src = Opt.str "UP"
      · by_cases hic : rs.inputCounter < sc.input.length
        · right; right
          refine ⟨sc.input.getD rs.inputCounter 0, ?_, hic, rfl⟩
          simp [recvVal, hacc, hsym, scenarioHooks, recvHook, hup,
            Nat.not_le.mpr hic]
        · right; left
          refine ⟨?_, Nat.le_of_not_lt hic⟩
          simp [recvVal, hacc, hsym, scenarioHooks, recvHook, hup,
            Nat.le_of_not_lt hic]
      · left
        simp [recvVal, hacc, hsym, scenarioHooks, recvHook, hup]

/-- Exhaustive behavior of the concrete `send` resolution: discard,
accumulator assignment, or port delegation. -/
theorem sendValC_cases (sc : Scenario) (dst : Opt) (v acc : Int)
    (rs : RunState) :
    (dst = Opt.str "NIL" ∧
      sendVal (scenarioHooks sc) dst v acc rs = Except.ok (acc, rs)) ∨
    (dst = Opt.str "ACC" ∧
      sendVal (scenarioHooks sc) dst v acc rs = Except.ok (v, rs)) ∨
    (dst ≠ Opt.str "NIL" ∧ dst ≠ Opt.str "ACC" ∧
      (sendVal (scenarioHooks sc) dst v acc rs =
          Except.error (Sig.stateViolation, rs) ∨
       (sendVal (scenarioHooks sc) dst v acc rs =
          Except.error (Sig.fatal "unreachable", rs) ∧
        sc.output.length ≤ rs.outputCounter) ∨
       (sendVal (scenarioHooks sc) dst v acc rs =
          Except.ok (acc, { rs with outputCounter := rs.outputCounter + 1 }) ∧
        rs.outputCounter + 1 < sc.output.length ∧
        v = sc.output.getD rs.outputCounter 0) ∨
       (sendVal (scenarioHooks sc) dst v acc rs =
          Except.error (Sig.done,
            { rs with outputCounter := rs.outputCounter + 1 }) ∧
        rs.outputCounter < sc.output.length ∧
        v = sc.output.getD rs.outputCounter 0))) := by
  by_cases hnil : dst = Opt.str "NIL"
  · left
    exact ⟨hnil, by simp [sendVal, hnil]⟩
  · by_cases haccd : dst = Opt.str "ACC"
    · right; left
      exact ⟨haccd, by simp [sendVal, hnil, haccd]⟩
    · right; right
      refine ⟨hnil, haccd, ?_⟩
      by_cases hdown : dst = Opt.str "DOWN"
      · by_cases hoc : sc.output.length ≤ rs.outputCounter
        · right; left
          refine ⟨?_, hoc⟩
          simp [sendVal, hnil, haccd, scenarioHooks, sendHook, hdown, hoc]
        · by_cases hv : v = sc.output.getD rs.outputCounter 0
          · by_cases hlast : sc.output.length ≤ rs.outputCounter + 1
            · right; right; right
              refine ⟨?_, Nat.lt_of_not_le hoc, hv⟩
              simp [sendVal, hnil, haccd, scenarioHooks, sendHook, hdown,
                hoc, hv, hlast]
            · right; right; left
              refine ⟨?_, Nat.lt_of_not_le hlast, hv⟩
              simp [sendVal, hnil, haccd, scenarioHooks, sendHook, hdown,
                hoc, hv, hlast]
          · left
            simp only [List.getD_eq_getElem?_getD] at hv
            simp [sendVal, hnil, haccd, scenarioHooks, sendHook, hdown, hoc,
              hv]
      · left
        simp [sendVal, hnil, haccd, scenarioHooks, sendHook, hdown]

/-- Exhaustive behavior of the report hook: repeat-key violation, fresh-key
detail-state conflict, or fresh-key success (encounters extended). -/
theorem reportHookC_cases (sc : Scenario) (r : String) (rs : RunState) :
    (fullReport r rs ∈ rs.encounters ∧
      reportHook sc r rs = Except.error (Sig.stateViolation, rs)) ∨
    (fullReport r rs ∉ rs.encounters ∧
      (reportHook sc r rs = Except.error (Sig.stateViolation,
          { rs with encounters := fullReport r rs :: rs.encounters }) ∨
       ∃ tg, reportHook sc r rs = Except.ok
          { rs with
            encounters := fullReport r rs :: rs.encounters
            targetable := tg })) := by
  by_cases hseen : fullReport r rs ∈ rs.encounters
  · left
    refine ⟨hseen, ?_⟩
    simp only [reportHook]
    rw [if_pos hseen]
  · right
    refine ⟨hseen, ?_⟩
    simp only [reportHook]
    rw [if_neg hseen]
    rcases htgt : tgtGet rs.targetable
        (detailStateOf sc
          { rs with encounters := fullReport r rs :: rs.encounters } r)
      with _ | t
    · right
      exact ⟨_, rfl⟩
    · by_cases hne : t ≠ targetOf sc
        { rs with encounters := fullReport r rs :: rs.encounters }
      · left
        exact if_pos hne
      · right
        exact ⟨_, if_neg hne⟩

/-- The concrete accumulator range maintained by the bounded `add`. -/
def ValOk (n : Int) : Prop := -999 ≤ n ∧ n ≤ 999

/-- Store sanity maintained by the search: opcode bindings come from the
opcode domain and constant bindings from the `[0, 2]` domain. -/
structure CtxOk (ctx : ParamContext) : Prop where
  opOk : ∀ loc v, ctxGet ctx (paramOp loc).key = some v →
    v ∈ (paramOp loc).options
  constOk : ∀ loc v, ctxGet ctx (constantParam loc).key = some v →
    v = Opt.num 0 ∨ v = Opt.num 2

/-- The finite set of values a run on scenario `sc` can hold in a
register: bounded `add` results, the constants `0` and `2` (and `-2`, their
negation), and the scenario's input values and their negations. -/
def valSet (sc : Scenario) : Finset Int :=
  Finset.Icc (-999) 999 ∪ {0, 2, -2} ∪ sc.input.toFinset ∪
    (sc.input.map (fun v => -v)).toFinset

theorem valSet_of_valOk {sc : Scenario} {n : Int} (h : ValOk n) :
    n ∈ valSet sc := by
  unfold ValOk at h
  simp [valSet, Finset.mem_union, Finset.mem_Icc]
  omega

theorem valSet_zero (sc : Scenario) : (0 : Int) ∈ valSet sc :=
  valSet_of_valOk (by unfold ValOk; omega)

theorem valSet_two (sc : Scenario) : (2 : Int) ∈ valSet sc :=
  valSet_of_valOk (by unfold ValOk; omega)

theorem valSet_neg {sc : Scenario} {n : Int} (h : n ∈ valSet sc) :
    -n ∈ valSet sc := by
  simp only [valSet, Finset.mem_union, Finset.mem_Icc, Finset.mem_insert,
    Finset.mem_singleton, List.mem_toFinset, List.mem_map] at h ⊢
  rcases h with ((h | h) | h) | h
  · left; left; left
    omega
  · left; left; right
    omega
  · right
    exact ⟨n, h, rfl⟩
  · rcases h with ⟨x, hx, rfl⟩
    left; right
    simpa using hx

theorem valSet_getD {sc : Scenario} {i : Nat} (hi : i < sc.input.length) :
    sc.input.getD i 0 ∈ valSet sc := by
  simp only [valSet, Finset.mem_union, List.mem_toFinset]
  left; right
  rw [List.getD_eq_getElem _ _ hi]
  exact List.getElem_mem hi

attribute [irreducible] valSet

theorem concreteAdd_ok {a b c : Int} (h : concreteAdd a b = Except.ok c) :
    c = a + b ∧ ValOk c := by
  by_cases hc : a + b > 999 ∨ a + b < -999
  · simp [concreteAdd, hc] at h
  · simp [concreteAdd, hc] at h
    refine ⟨h.symm, ?_⟩
    unfold ValOk
    omega

theorem concreteAdd_error {a b : Int} {e : Sig}
    (h : concreteAdd a b = Except.error e) : e = Sig.stateViolation := by
  by_cases hc : a + b > 999 ∨ a + b < -999
  · simp [concreteAdd, hc] at h
    exact h.symm
  · simp [concreteAdd, hc] at h

theorem valOk_neg {n : Int} (h : ValOk n) : ValOk (-n) := by
  unfold ValOk at h ⊢
  omega


/-- Master classification of one concrete emulator step inside `solve`:
either the step succeeds (advancing `pc` by one modulo `MAX_INSTRS`,
extending `encounters` by the fresh composite key, advancing the cursors
only within bounds, preserving the value range, with every consulted
decision point bound), or it throws the missing decision point that the
canonical consultation order determines, or it throws a non-missing signal
(which, under store sanity and a strict output-cursor bound, is never a
fatal error). -/
theorem stepC_master {ctx : ParamContext} {sc : Scenario}
    {st : NodeState Int} {rs : RunState}
    {r : Except (Sig × RunState) (NodeState Int × RunState)}
    (h : stepC ctx sc st rs = r) :
    (∃ st1 rs1, r = Except.ok (st1, rs1) ∧
      st1.pc = (st.pc + 1) % MAX_INSTRS ∧
      rs1.encounters =
        fullReport (jsonState st.pc st.acc st.bak) rs :: rs.encounters ∧
      fullReport (jsonState st.pc st.acc st.bak) rs ∉ rs.encounters ∧
      (rs1.inputCounter = rs.inputCounter ∨
        (rs1.inputCounter = rs.inputCounter + 1 ∧
          rs.inputCounter < sc.input.length)) ∧
      (rs1.outputCounter = rs.outputCounter ∨
        (rs1.outputCounter = rs.outputCounter + 1 ∧
          rs.outputCounter + 1 < sc.output.length)) ∧
      (st.acc ∈ valSet sc → st.bak ∈ valSet sc → CtxOk ctx →
        st1.acc ∈ valSet sc ∧ st1.bak ∈ valSet sc) ∧
      firstUnboundAt ctx st.pc = none) ∨
    (∃ p rs1, r = Except.error (Sig.missing p, rs1) ∧
      firstUnboundAt ctx st.pc = some p) ∨
    (∃ e rs1, r = Except.error (e, rs1) ∧ (∀ q, e ≠ Sig.missing q) ∧
      e ≠ Sig.redundancy ∧
      (CtxOk ctx → rs.outputCounter < sc.output.length →
        ∀ m, e ≠ Sig.fatal m)) := by
  unfold stepC emulateStep at h
  rcases reportHookC_cases sc (jsonState st.pc st.acc st.bak) rs with
    ⟨hseen, hR⟩ | ⟨hfresh, hR | ⟨tg, hR⟩⟩
  · simp only [hR] at h
    right; right
    exact ⟨Sig.stateViolation, rs, h.symm, by simp, by simp, by simp⟩
  · simp only [hR] at h
    right; right
    exact ⟨Sig.stateViolation, _, h.symm, by simp, by simp, by simp⟩
  · simp only [hR] at h
    generalize hsR : ({ rs with
        encounters :=
          fullReport (jsonState st.pc st.acc st.bak) rs :: rs.encounters
        targetable := tg } : RunState) = sR at h
    rcases hOp : ctxGet ctx (paramOp ("node00:" ++ toString st.pc)).key
      with _ | op
    · simp only [loadParam, hOp] at h
      right; left
      refine ⟨paramOp ("node00:" ++ toString st.pc), sR, h.symm, ?_⟩
      simp [firstUnboundAt, hOp]
    · simp only [loadParam, hOp] at h
      split at h
      -- ADD
      · rcases hRd : ctxGet ctx (argRead ("node00:" ++ toString st.pc)).key
          with _ | src
        · simp only [loadParam, hRd, withS] at h
          subst hsR
          right; left
          refine ⟨argRead ("node00:" ++ toString st.pc), _, h.symm, ?_⟩
          simp [firstUnboundAt, hOp, hRd]
        · simp only [loadParam, hRd, withS] at h
          rcases recvValC_cases ctx sc st.acc src
              ("node00:" ++ toString st.pc) sR with
            ⟨hsrc, hrv⟩ | ⟨hsrc, n, hcn, hrv⟩ | ⟨hsrc, hcn, hrv⟩ |
            ⟨hsrc, ⟨t, hct⟩, hrv⟩ | ⟨hs1, hs2, hrv3⟩
          · -- ACC read
            subst hsrc
            simp only [hrv] at h
            rcases hA : (concreteArith ctx).add st.acc st.acc with e | a
            · simp only [hA, withS] at h
              simp only [concreteArith] at hA
              have he := concreteAdd_error hA
              subst he hsR
              right; right
              exact ⟨_, _, h.symm, by simp, by simp, by simp⟩
            · simp only [hA, withS] at h
              simp only [concreteArith] at hA
              have ha := concreteAdd_ok hA
              subst hsR
              left
              refine ⟨_, _, h.symm, rfl, rfl, hfresh, Or.inl rfl, Or.inl rfl,
                ?_, ?_⟩
              · intro _ hb _
                exact ⟨valSet_of_valOk ha.2, hb⟩
              · simp [firstUnboundAt, hOp, hRd]
          · -- sym read, constant bound
            subst hsrc
            simp only [hrv] at h
            rcases hA : (concreteArith ctx).add st.acc n with e | a
            · simp only [hA, withS] at h
              simp only [concreteArith] at hA
              have he := concreteAdd_error hA
              subst he hsR
              right; right
              exact ⟨_, _, h.symm, by simp, by simp, by simp⟩
            · simp only [hA, withS] at h
              simp only [concreteArith] at hA
              have ha := concreteAdd_ok hA
              subst hsR
              left
              refine ⟨_, _, h.symm, rfl, rfl, hfresh, Or.inl rfl, Or.inl rfl,
                ?_, ?_⟩
              · intro _ hb _
                exact ⟨valSet_of_valOk ha.2, hb⟩
              · simp [firstUnboundAt, hOp, hRd, hcn]
          · -- sym read, constant unbound
            subst hsrc
            simp only [hrv] at h
            subst hsR
            right; left
            refine ⟨constantParam ("node00:" ++ toString st.pc), _, h.symm, ?_⟩
            simp [firstUnboundAt, hOp, hRd, hcn]
          · -- sym read, non-numeric constant
            subst hsrc
            simp only [hrv] at h
            subst hsR
            right; right
            refine ⟨_, _, h.symm, by simp, by simp, ?_⟩
            intro hco _ m
            rcases hco.constOk _ _ hct with h0 | h0 <;> cases h0
          · -- port read
            rcases hrv3 with hrv | ⟨hrv, hstk⟩ | ⟨v, hrv, hic, hv⟩
            · simp only [hrv] at h
              subst hsR
              right; right
              exact ⟨_, _, h.symm, by simp, by simp, by simp⟩
            · simp only [hrv] at h
              subst hsR
              right; right
              exact ⟨_, _, h.symm, by simp, by simp, by simp⟩
            · simp only [hrv] at h
              rcases hA : (concreteArith ctx).add st.acc v with e | a
              · simp only [hA, withS] at h
                simp only [concreteArith] at hA
                have he := concreteAdd_error hA
                subst he hsR
                right; right
                exact ⟨_, _, h.symm, by simp, by simp, by simp⟩
              · simp only [hA, withS] at h
                simp only [concreteArith] at hA
                have ha := concreteAdd_ok hA
                subst hsR
                left
                refine ⟨_, _, h.symm, rfl, rfl, hfresh, Or.inr ⟨rfl, hic⟩,
                  Or.inl rfl, ?_, ?_⟩
                · intro _ hb _
                  exact ⟨valSet_of_valOk ha.2, hb⟩
                · simp [firstUnboundAt, hOp, hRd, hs2]
      -- SUB
      · rcases hRd : ctxGet ctx (argRead ("node00:" ++ toString st.pc)).key
          with _ | src
        · simp only [loadParam, hRd, withS] at h
          subst hsR
          right; left
          refine ⟨argRead ("node00:" ++ toString st.pc), _, h.symm, ?_⟩
          simp [firstUnboundAt, hOp, hRd]
        · simp only [loadParam, hRd, withS] at h
          rcases recvValC_cases ctx sc st.acc src
              ("node00:" ++ toString st.pc) sR with
            ⟨hsrc, hrv⟩ | ⟨hsrc, n, hcn, hrv⟩ | ⟨hsrc, hcn, hrv⟩ |
            ⟨hsrc, ⟨t, hct⟩, hrv⟩ | ⟨hs1, hs2, hrv3⟩
          · -- ACC read
            subst hsrc
            simp only [hrv] at h
            simp only [concreteArith, withS] at h
            rcases hA : concreteAdd st.acc (-st.acc) with e | a
            · simp only [hA] at h
              have he := concreteAdd_error hA
              subst he hsR
              right; right
              exact ⟨_, _, h.symm, by simp, by simp, by simp⟩
            · simp only [hA] at h
              have ha := concreteAdd_ok hA
              subst hsR
              left
              refine ⟨_, _, h.symm, rfl, rfl, hfresh, Or.inl rfl, Or.inl rfl,
                ?_, ?_⟩
              · intro _ hb _
                exact ⟨valSet_of_valOk ha.2, hb⟩
              · simp [firstUnboundAt, hOp, hRd]
          · -- sym read, constant bound
            subst hsrc
            simp only [hrv] at h
            simp only [concreteArith, withS] at h
            rcases hA : concreteAdd st.acc (-n) with e | a
            · simp only [hA] at h
              have he := concreteAdd_error hA
              subst he hsR
              right; right
              exact ⟨_, _, h.symm, by simp, by simp, by simp⟩
            · simp only [hA] at h
              have ha := concreteAdd_ok hA
              subst hsR
              left
              refine ⟨_, _, h.symm, rfl, rfl, hfresh, Or.inl rfl, Or.inl rfl,
                ?_, ?_⟩
              · intro _ hb _
                exact ⟨valSet_of_valOk ha.2, hb⟩
              · simp [firstUnboundAt, hOp, hRd, hcn]
          · -- sym read, constant unbound
            subst hsrc
            simp only [hrv] at h
            subst hsR
            right; left
            refine ⟨constantParam ("node00:" ++ toString st.pc), _, h.symm, ?_⟩
            simp [firstUnboundAt, hOp, hRd, hcn]
          · -- sym read, non-numeric constant
            subst hsrc
            simp only [hrv] at h
            subst hsR
            right; right
            refine ⟨_, _, h.symm, by simp, by simp, ?_⟩
            intro hco _ m
            rcases hco.constOk _ _ hct with h0 | h0 <;> cases h0
          · -- port read
            rcases hrv3 with hrv | ⟨hrv, hstk⟩ | ⟨v, hrv, hic, hv⟩
            · simp only [hrv] at h
              subst hsR
              right; right
              exact ⟨_, _, h.symm, by simp, by simp, by simp⟩
            · simp only [hrv] at h
              subst hsR
              right; right
              exact ⟨_, _, h.symm, by simp, by simp, by simp⟩
            · simp only [hrv] at h
              simp only [concreteArith, withS] at h
              rcases hA : concreteAdd st.acc (-v) with e | a
              · simp only [hA] at h
                have he := concreteAdd_error hA
                subst he hsR
                right; right
                exact ⟨_, _, h.symm, by simp, by simp, by simp⟩
              · simp only [hA] at h
                have ha := concreteAdd_ok hA
                subst hsR
                left
                refine ⟨_, _, h.symm, rfl, rfl, hfresh, Or.inr ⟨rfl, hic⟩,
                  Or.inl rfl, ?_, ?_⟩
                · intro _ hb _
                  exact ⟨valSet_of_valOk ha.2, hb⟩
                · simp [firstUnboundAt, hOp, hRd, hs2]
      -- MOV
      · rcases hRd : ctxGet ctx (argRead ("node00:" ++ toString st.pc)).key
          with _ | src
        · simp only [loadParam, hRd, withS] at h
          subst hsR
          right; left
          refine ⟨argRead ("node00:" ++ toString st.pc), _, h.symm, ?_⟩
          simp [firstUnboundAt, hOp, hRd]
        · simp only [loadParam, hRd, withS] at h
          rcases recvValC_cases ctx sc st.acc src
              ("node00:" ++ toString st.pc) sR with
            ⟨hsrc, hrv⟩ | ⟨hsrc, n, hcn, hrv⟩ | ⟨hsrc, hcn, hrv⟩ |
            ⟨hsrc, ⟨t, hct⟩, hrv⟩ | ⟨hs1, hs2, hrv3⟩
          · -- ACC read
            subst hsrc
            simp only [hrv] at h
            rcases hWr : ctxGet ctx
                (argWrite ("node00:" ++ toString st.pc)).key with _ | dst
            · simp only [loadParam, hWr, withS] at h
              subst hsR
              right; left
              refine ⟨argWrite ("node00:" ++ toString st.pc), _, h.symm, ?_⟩
              simp [firstUnboundAt, hOp, hRd, hWr]
            · simp only [loadParam, hWr, withS] at h
              rcases sendValC_cases sc dst st.acc st.acc sR with
                ⟨hd, hsv⟩ | ⟨hd, hsv⟩ | ⟨hd1, hd2, hsv3⟩
              · -- NIL write of ACC: redundancy violation
                subst hd
                simp only [hsv] at h
                rw [if_pos (by simp [isNum])] at h
                subst hsR
                right; right
                exact ⟨_, _, h.symm, by simp, by simp, by simp⟩
              · -- ACC write
                subst hd
                simp only [hsv] at h
                rw [if_neg (by simp)] at h
                subst hsR
                left
                refine ⟨_, _, h.symm, rfl, rfl, hfresh, Or.inl rfl,
                  Or.inl rfl, ?_, ?_⟩
                · intro ha hb _
                  exact ⟨ha, hb⟩
                · simp [firstUnboundAt, hOp, hRd, hWr]
              · rcases hsv3 with hsv | ⟨hsv, hocx⟩ | ⟨hsv, hlt, hv2⟩ |
                  ⟨hsv, hlt, hv2⟩
                · simp only [hsv] at h
                  subst hsR
                  right; right
                  exact ⟨_, _, h.symm, by simp, by simp, by simp⟩
                · simp only [hsv] at h
                  subst hsR
                  right; right
                  refine ⟨_, _, h.symm, by simp, by simp, ?_⟩
                  intro _ hlt m
                  have hx : sc.output.length ≤ rs.outputCounter := hocx
                  exact fun _ => absurd hlt (Nat.not_lt.mpr hx)
                · simp only [hsv] at h
                  rw [if_neg (by simp [hd1])] at h
                  subst hsR
                  left
                  refine ⟨_, _, h.symm, rfl, rfl, hfresh, Or.inl rfl,
                    Or.inr ⟨rfl, hlt⟩, ?_, ?_⟩
                  · intro ha hb _
                    exact ⟨ha, hb⟩
                  · simp [firstUnboundAt, hOp, hRd, hWr]
                · simp only [hsv] at h
                  subst hsR
                  right; right
                  exact ⟨_, _, h.symm, by simp, by simp, by simp⟩
          · -- sym read, constant bound
            subst hsrc
            simp only [hrv] at h
            rcases hWr : ctxGet ctx
                (argWrite ("node00:" ++ toString st.pc)).key with _ | dst
            · simp only [loadParam, hWr, withS] at h
              subst hsR
              right; left
              refine ⟨argWrite ("node00:" ++ toString st.pc), _, h.symm, ?_⟩
              simp [firstUnboundAt, hOp, hRd, hWr, hcn]
            · simp only [loadParam, hWr, withS] at h
              rcases sendValC_cases sc dst n st.acc sR with
                ⟨hd, hsv⟩ | ⟨hd, hsv⟩ | ⟨hd1, hd2, hsv3⟩
              · -- NIL write of sym: NOT redundancy-pruned
                subst hd
                simp only [hsv] at h
                rw [if_neg (by simp [isNum])] at h
                subst hsR
                left
                refine ⟨_, _, h.symm, rfl, rfl, hfresh, Or.inl rfl,
                  Or.inl rfl, ?_, ?_⟩
                · intro ha hb _
                  exact ⟨ha, hb⟩
                · simp [firstUnboundAt, hOp, hRd, hWr, hcn]
              · -- ACC write of the constant
                subst hd
                simp only [hsv] at h
                rw [if_neg (by simp)] at h
                subst hsR
                left
                refine ⟨_, _, h.symm, rfl, rfl, hfresh, Or.inl rfl,
                  Or.inl rfl, ?_, ?_⟩
                · intro _ hb hco
                  refine ⟨?_, hb⟩
                  rcases hco.constOk _ _ hcn with h0 | h0
                  · cases h0
                    exact valSet_zero sc
                  · cases h0
                    exact valSet_two sc
                · simp [firstUnboundAt, hOp, hRd, hWr, hcn]
              · rcases hsv3 with hsv | ⟨hsv, hocx⟩ | ⟨hsv, hlt, hv2⟩ |
                  ⟨hsv, hlt, hv2⟩
                · simp only [hsv] at h
                  subst hsR
                  right; right
                  exact ⟨_, _, h.symm, by simp, by simp, by simp⟩
                · simp only [hsv] at h
                  subst hsR
                  right; right
                  refine ⟨_, _, h.symm, by simp, by simp, ?_⟩
                  intro _ hlt m
                  have hx : sc.output.length ≤ rs.outputCounter := hocx
                  exact fun _ => absurd hlt (Nat.not_lt.mpr hx)
                · simp only [hsv] at h
                  rw [if_neg (by simp [hd1])] at h
                  subst hsR
                  left
                  refine ⟨_, _, h.symm, rfl, rfl, hfresh, Or.inl rfl,
                    Or.inr ⟨rfl, hlt⟩, ?_, ?_⟩
                  · intro ha hb _
                    exact ⟨ha, hb⟩
                  · simp [firstUnboundAt, hOp, hRd, hWr, hcn]
                · simp only [hsv] at h
                  subst hsR
                  right; right
                  exact ⟨_, _, h.symm, by simp, by simp, by simp⟩
          · -- sym read, constant unbound
            subst hsrc
            simp only [hrv] at h
            subst hsR
            right; left
            refine ⟨constantParam ("node00:" ++ toString st.pc), _, h.symm, ?_⟩
            simp [firstUnboundAt, hOp, hRd, hcn]
          · -- sym read, non-numeric constant
            subst hsrc
            simp only [hrv] at h
            subst hsR
            right; right
            refine ⟨_, _, h.symm, by simp, by simp, ?_⟩
            intro hco _ m
            rcases hco.constOk _ _ hct with h0 | h0 <;> cases h0
          · -- port read
            rcases hrv3 with hrv | ⟨hrv, hstk⟩ | ⟨v, hrv, hic, hv⟩
            · simp only [hrv] at h
              subst hsR
              right; right
              exact ⟨_, _, h.symm, by simp, by simp, by simp⟩
            · simp only [hrv] at h
              subst hsR
              right; right
              exact ⟨_, _, h.symm, by simp, by simp, by simp⟩
            · simp only [hrv] at h
              rcases hWr : ctxGet ctx
                  (argWrite ("node00:" ++ toString st.pc)).key with _ | dst
              · simp only [loadParam, hWr, withS] at h
                subst hsR
                right; left
                refine ⟨argWrite ("node00:" ++ toString st.pc), _, h.symm,
                  ?_⟩
                simp [firstUnboundAt, hOp, hRd, hWr, hs2]
              · simp only [loadParam, hWr, withS] at h
                rcases sendValC_cases sc dst v st.acc
                    { sR with inputCounter := sR.inputCounter + 1 } with
                  ⟨hd, hsv⟩ | ⟨hd, hsv⟩ | ⟨hd1, hd2, hsv3⟩
                · -- NIL write of a port read
                  subst hd
                  simp only [hsv] at h
                  rcases src with sname | k
                  · rw [if_neg (by simp [isNum, hs1])] at h
                    subst hsR
                    left
                    refine ⟨_, _, h.symm, rfl, rfl, hfresh,
                      Or.inr ⟨rfl, hic⟩, Or.inl rfl, ?_, ?_⟩
                    · intro ha hb _
                      exact ⟨ha, hb⟩
                    · simp [firstUnboundAt, hOp, hRd, hWr, hs2]
                  · rw [if_pos (by simp [isNum])] at h
                    subst hsR
                    right; right
                    exact ⟨_, _, h.symm, by simp, by simp, by simp⟩
                · -- ACC write of a port read
                  subst hd
                  simp only [hsv] at h
                  rw [if_neg (by simp)] at h
                  subst hsR
                  left
                  refine ⟨_, _, h.symm, rfl, rfl, hfresh,
                    Or.inr ⟨rfl, hic⟩, Or.inl rfl, ?_, ?_⟩
                  · intro _ hb _
                    subst hv
                    exact ⟨valSet_getD hic, hb⟩
                  · simp [firstUnboundAt, hOp, hRd, hWr, hs2]
                · rcases hsv3 with hsv | ⟨hsv, hocx⟩ | ⟨hsv, hlt, hv2⟩ |
                    ⟨hsv, hlt, hv2⟩
                  · simp only [hsv] at h
                    subst hsR
                    right; right
                    exact ⟨_, _, h.symm, by simp, by simp, by simp⟩
                  · simp only [hsv] at h
                    subst hsR
                    right; right
                    refine ⟨_, _, h.symm, by simp, by simp, ?_⟩
                    intro _ hlt m
                    have hx : sc.output.length ≤ rs.outputCounter := hocx
                    exact fun _ => absurd hlt (Nat.not_lt.mpr hx)
                  · simp only [hsv] at h
                    rw [if_neg (by simp [hd1])] at h
                    subst hsR
                    left
                    refine ⟨_, _, h.symm, rfl, rfl, hfresh,
                      Or.inr ⟨rfl, hic⟩, Or.inr ⟨rfl, hlt⟩, ?_, ?_⟩
                    · intro ha hb _
                      exact ⟨ha, hb⟩
                    · simp [firstUnboundAt, hOp, hRd, hWr, hs2]
                  · simp only [hsv] at h
                    subst hsR
                    right; right
                    exact ⟨_, _, h.symm, by simp, by simp, by simp⟩
      -- NEG
      · simp only [concreteArith, withS] at h
        subst hsR
        left
        refine ⟨_, _, h.symm, rfl, rfl, hfresh, Or.inl rfl, Or.inl rfl,
          ?_, ?_⟩
        · intro ha hb _
          exact ⟨valSet_neg ha, hb⟩
        · simp [firstUnboundAt, hOp]
      -- SWP
      · subst hsR
        left
        refine ⟨_, _, h.symm, rfl, rfl, hfresh, Or.inl rfl, Or.inl rfl,
          ?_, ?_⟩
        · intro ha hb _
          exact ⟨hb, ha⟩
        · simp [firstUnboundAt, hOp]
      -- SAV
      · subst hsR
        left
        refine ⟨_, _, h.symm, rfl, rfl, hfresh, Or.inl rfl, Or.inl rfl,
          ?_, ?_⟩
        · intro ha _ _
          exact ⟨ha, ha⟩
        · simp [firstUnboundAt, hOp]
      -- NOP
      · subst hsR
        left
        refine ⟨_, _, h.symm, rfl, rfl, hfresh, Or.inl rfl, Or.inl rfl,
          ?_, ?_⟩
        · intro ha hb _
          exact ⟨ha, hb⟩
        · simp [firstUnboundAt, hOp]
      -- dispatch default: no table entry
      · subst hsR
        right; right
        refine ⟨_, _, h.symm, by simp, by simp, ?_⟩
        intro hco _ m
        have hmem := hco.opOk _ _ hOp
        simp only [paramOp, param, List.mem_cons, List.not_mem_nil,
          or_false] at hmem
        rcases hmem with h0 | h0 | h0 | h0 | h0 | h0 | h0 <;> subst h0 <;>
          simp_all

theorem canonicalMissing_of {ctx : ParamContext} {m : Nat} {p : Param}
    (hm : m < 3) (hbound : ∀ k, k < m → firstUnboundAt ctx k = none)
    (hp : firstUnboundAt ctx m = some p) :
    canonicalMissing ctx = some p := by
  interval_cases m
  · simp [canonicalMissing, hp]
  · simp [canonicalMissing, hbound 0 (by omega), hp]
  · simp [canonicalMissing, hbound 0 (by omega), hbound 1 (by omega), hp]

/-- Any `ParamMissingError` thrown by a scenario run names the canonical
missing decision point of the store: the run visits slots in order, a
completed step means every decision point of its slot is bound, and a
missing throw names the first unbound point of the current slot. -/
theorem runLoop_missing {ctx : ParamContext} {sc : Scenario} :
    ∀ (fuel : Nat) (st : NodeState Int) (rs : RunState) (p : Param)
      (rs1 : RunState),
      st.pc < 3 →
      (∀ k, k < st.pc → firstUnboundAt ctx k = none) →
      emulateRun ctx jsonState (reportHook sc) (scenarioHooks sc)
        (concreteArith ctx) fuel st rs = some (Sig.missing p, rs1) →
      canonicalMissing ctx = some p := by
  intro fuel
  induction fuel with
  | zero =>
    intro st rs p rs1 _ _ hrun
    simp [emulateRun] at hrun
  | succ n ih =>
    intro st rs p rs1 hpc hbound hrun
    simp only [emulateRun] at hrun
    rcases stepC_master (rfl : stepC ctx sc st rs = stepC ctx sc st rs) with
      ⟨st1, rs2, hok, hpc1, _, _, _, _, _, hnone⟩ |
      ⟨q, rs2, herr, hq⟩ | ⟨e, rs2, herr, hnm, _, _⟩
    · unfold stepC at hok
      simp only [hok] at hrun
      apply ih st1 rs2 p rs1 ?_ ?_ hrun
      · rw [hpc1]
        exact Nat.mod_lt _ (by decide)
      · intro k hk
        rw [hpc1] at hk
        rcases Nat.lt_or_ge (st.pc + 1) MAX_INSTRS with hlt | hge
        · rw [Nat.mod_eq_of_lt hlt] at hk
          rcases Nat.lt_succ_iff_lt_or_eq.mp hk with hk2 | hk2
          · exact hbound k hk2
          · rw [hk2]
            exact hnone
        · have hmi : MAX_INSTRS = 3 := rfl
          have hpc2 : st.pc = 2 := by omega
          rw [hpc2, hmi] at hk
          norm_num at hk
    · unfold stepC at herr
      simp only [herr] at hrun
      simp only [Option.some.injEq, Prod.mk.injEq] at hrun
      rcases hrun with ⟨hsig, _⟩
      cases hsig
      exact canonicalMissing_of hpc hbound hq
    · unfold stepC at herr
      simp only [herr] at hrun
      simp only [Option.some.injEq, Prod.mk.injEq] at hrun
      exact absurd hrun.1 (hnm p)

theorem runScenario_missing {fuel : Nat} {ctx : ParamContext}
    {sc : Scenario} {tgt : List (String × String)} {p : Param}
    {rs1 : RunState}
    (h : runScenario fuel ctx sc tgt = some (Sig.missing p, rs1)) :
    canonicalMissing ctx = some p := by
  unfold runScenario at h
  refine runLoop_missing fuel initNode (initRun tgt) p rs1 (by decide) ?_ h
  intro k hk
  have hk0 : k < 0 := hk
  omega

/-- The branch point that the scenario loop ends with (when one was
recorded at all in a loop started with no branch point) is the canonical
missing decision point of the store. -/
theorem evalGo_branchPt {fuel : Nat} {ctx : ParamContext} :
    ∀ (scs : List Scenario) (d : Nat) (b : Option Param)
      (tgt : List (String × String)) (d2 : Nat) (p : Param),
      evalGo fuel ctx d b tgt scs = EvalResult.finished d2 (some p) →
      b = some p ∨ canonicalMissing ctx = some p := by
  intro scs
  induction scs with
  | nil =>
    intro d b tgt d2 p h
    simp only [evalGo, EvalResult.finished.injEq] at h
    exact Or.inl h.2
  | cons sc rest ih =>
    intro d b tgt d2 p h
    rw [evalGo] at h
    rcases hrs : runScenario fuel ctx sc tgt with _ | ⟨sig, rs⟩
    · rw [hrs] at h
      cases h
    · rw [hrs] at h
      cases sig with
      | missing q =>
        rcases ih d (some q) rs.targetable d2 p h with h0 | h0
        · cases h0
          exact Or.inr (runScenario_missing hrs)
        · exact Or.inr h0
      | done => exact ih (d + 1) b rs.targetable d2 p h
      | stateViolation => cases h
      | stuck => cases h
      | redundancy => cases h
      | fatal m => cases h

/-- **C6**: within one candidate's evaluation, every `MissingDecision`
signal any scenario run can raise names one and the same decision point
(the canonical first unbound consulted point), so the branch point the loop
ends with — although the code overwrites it on each occurrence — equals the
first one encountered in scenario order; and on a missing signal the
evaluation continues through the remaining scenarios instead of stopping. -/
theorem C6_branch_point (fuel : Nat) (ctx : ParamContext)
    (scs : List Scenario) (d : Nat) (p : Param)
    (h : evalGo fuel ctx 0 none [] scs = EvalResult.finished d (some p)) :
    canonicalMissing ctx = some p ∧
    (∀ sc ∈ scs, ∀ (fuel2 : Nat) (tgt : List (String × String)) (q : Param)
        (rs : RunState),
        runScenario fuel2 ctx sc tgt = some (Sig.missing q, rs) → q = p) ∧
    (∀ (d0 : Nat) (b : Option Param) (tgt : List (String × String))
        (sc : Scenario) (rest : List Scenario) (q : Param) (rs : RunState),
        runScenario fuel ctx sc tgt = some (Sig.missing q, rs) →
        evalGo fuel ctx d0 b tgt (sc :: rest) =
          evalGo fuel ctx d0 (some q) rs.targetable rest) := by
  have hc : canonicalMissing ctx = some p := by
    rcases evalGo_branchPt scs 0 none [] d p h with h0 | h0
    · cases h0
    · exact h0
  refine ⟨hc, ?_, ?_⟩
  · intro sc _ fuel2 tgt q rs hq
    have hcq := runScenario_missing hq
    rw [hc] at hcq
    exact (Option.some.inj hcq).symm
  · intro d0 b tgt sc rest q rs hq
    rw [evalGo, hq]

/-- Witness for C6: on the empty store, a two-scenario evaluation ends with
the slot-0 opcode decision as branch point, which is the canonical missing
decision point. -/
theorem C6_branch_point_witness :
    evalGo 5 emptyContext 0 none []
        [{ input := [0], output := [0] }, { input := [1], output := [1] }] =
      EvalResult.finished 0 (some (paramOp "node00:0")) ∧
    canonicalMissing emptyContext = some (paramOp "node00:0") :=
  ⟨by decide,
   (C6_branch_point 5 emptyContext
     [{ input := [0], output := [0] }, { input := [1], output := [1] }] 0
     (paramOp "node00:0") (by decide)).1⟩

/-! ## Termination of one scenario run

Every successful step records a fresh composite key in the per-run
`encounters` set, and all recordable keys serialize states from a finite
space (program counter below 3, registers within `[-999, 999]`, cursors
within the scenario lengths).  So a run longer than that space's size is
impossible: the loop-detection check fires first. -/

/-- Serialization of a machine/cursor state as recorded in `encounters`. -/
def serial (t : Nat × Int × Int × Nat × Nat) : String :=
  jsonState t.1 t.2.1 t.2.2.1 ++ ";" ++ toString t.2.2.2.1 ++ ";" ++
    toString t.2.2.2.2

/-- The finite space of machine/cursor states reachable in a run. -/
def stateSpace (sc : Scenario) : Finset (Nat × Int × Int × Nat × Nat) :=
  Finset.range 3 ×ˢ valSet sc ×ˢ valSet sc ×ˢ
    Finset.range (sc.input.length + 1) ×ˢ
    Finset.range (sc.output.length + 1)

def encSpace (sc : Scenario) : Finset String := (stateSpace sc).image serial

/-- Enough fuel for any run of any candidate on scenario `sc`. -/
def runBound (sc : Scenario) : Nat := (encSpace sc).card + 1

theorem mem_encSpace_of (sc : Scenario) (q : Nat × Int × Int × Nat × Nat)
    (hq : q ∈ stateSpace sc) : serial q ∈ encSpace sc :=
  Finset.mem_image_of_mem serial hq

attribute [irreducible] encSpace

/-- The per-step invariant of a live scenario run. -/
def RunInv (sc : Scenario) (st : NodeState Int) (rs : RunState) : Prop :=
  st.pc < 3 ∧ st.acc ∈ valSet sc ∧ st.bak ∈ valSet sc ∧
    rs.inputCounter ≤ sc.input.length ∧
    rs.outputCounter < sc.output.length ∧
    rs.encounters.Nodup ∧
    ∀ e ∈ rs.encounters, e ∈ encSpace sc

theorem RunInv.pcLt {sc : Scenario} {st : NodeState Int} {rs : RunState}
    (h : RunInv sc st rs) : st.pc < 3 := h.1

theorem RunInv.accOk {sc : Scenario} {st : NodeState Int} {rs : RunState}
    (h : RunInv sc st rs) : st.acc ∈ valSet sc := h.2.1

theorem RunInv.bakOk {sc : Scenario} {st : NodeState Int} {rs : RunState}
    (h : RunInv sc st rs) : st.bak ∈ valSet sc := h.2.2.1

theorem RunInv.icLe {sc : Scenario} {st : NodeState Int} {rs : RunState}
    (h : RunInv sc st rs) : rs.inputCounter ≤ sc.input.length := h.2.2.2.1

theorem RunInv.ocLt {sc : Scenario} {st : NodeState Int} {rs : RunState}
    (h : RunInv sc st rs) : rs.outputCounter < sc.output.length :=
  h.2.2.2.2.1

theorem RunInv.nodup {sc : Scenario} {st : NodeState Int} {rs : RunState}
    (h : RunInv sc st rs) : rs.encounters.Nodup := h.2.2.2.2.2.1

theorem RunInv.encSub {sc : Scenario} {st : NodeState Int} {rs : RunState}
    (h : RunInv sc st rs) : ∀ e ∈ rs.encounters, e ∈ encSpace sc :=
  h.2.2.2.2.2.2

theorem encounters_le {sc : Scenario} {st : NodeState Int} {rs : RunState}
    (hinv : RunInv sc st rs) :
    rs.encounters.length ≤ (encSpace sc).card := by
  have hsub : rs.encounters.toFinset ⊆ encSpace sc := fun e he =>
    hinv.encSub e (List.mem_toFinset.mp he)
  have := Finset.card_le_card hsub
  rwa [List.toFinset_card_of_nodup hinv.nodup] at this

theorem stepC_inv {ctx : ParamContext} {sc : Scenario} {st st1 : NodeState Int}
    {rs rs1 : RunState} (hco : CtxOk ctx)
    (hinv : RunInv sc st rs)
    (hok : stepC ctx sc st rs = Except.ok (st1, rs1)) :
    RunInv sc st1 rs1 ∧
      rs1.encounters.length = rs.encounters.length + 1 := by
  rcases stepC_master hok with
    ⟨st2, rs2, heq, hpc, henc, hfr, hic, hoc, hval, _⟩ |
    ⟨p, rs2, heq, _⟩ | ⟨e, rs2, heq, _, _, _⟩
  · have hinj : st1 = st2 ∧ rs1 = rs2 := by
      have := heq
      simp only [Except.ok.injEq, Prod.mk.injEq] at this
      exact this
    rcases hinj with ⟨rfl, rfl⟩
    refine ⟨⟨?_, ?_, ?_, ?_, ?_, ?_, ?_⟩, ?_⟩
    · rw [hpc]
      exact Nat.mod_lt _ (by decide)
    · exact (hval hinv.accOk hinv.bakOk hco).1
    · exact (hval hinv.accOk hinv.bakOk hco).2
    · rcases hic with h1 | ⟨h1, h2⟩
      · rw [h1]
        exact hinv.icLe
      · rw [h1]
        omega
    · rcases hoc with h1 | ⟨h1, h2⟩
      · rw [h1]
        exact hinv.ocLt
      · rw [h1]
        exact h2
    · rw [henc]
      exact List.nodup_cons.mpr ⟨hfr, hinv.nodup⟩
    · intro e he
      rw [henc] at he
      rcases List.mem_cons.mp he with rfl | he2
      · have h1 := hinv.pcLt
        have h2 := hinv.accOk
        have h3 := hinv.bakOk
        have h4 := hinv.icLe
        have h5 := hinv.ocLt
        have hq : (st.pc, st.acc, st.bak, rs.inputCounter,
            rs.outputCounter) ∈ stateSpace sc := by
          simp only [stateSpace, Finset.mem_product, Finset.mem_range]
          exact ⟨h1, h2, h3, by omega, by omega⟩
        exact mem_encSpace_of sc
          (st.pc, st.acc, st.bak, rs.inputCounter, rs.outputCounter) hq
      · exact hinv.encSub e he2
    · rw [henc]
      rfl
  · cases heq
  · cases heq

theorem stepC_err_sig {ctx : ParamContext} {sc : Scenario}
    {st : NodeState Int} {rs rs2 : RunState} {e : Sig} (hco : CtxOk ctx)
    (hocLt : rs.outputCounter < sc.output.length)
    (herr : stepC ctx sc st rs = Except.error (e, rs2)) :
    e = Sig.stateViolation ∨ e = Sig.stuck ∨ e = Sig.done ∨
      ∃ p, e = Sig.missing p := by
  rcases stepC_master herr with
    ⟨st1, rs1, heq, _⟩ | ⟨p, rs1, heq, _⟩ | ⟨e2, rs1, heq, hnm, hnr, hnf⟩
  · cases heq
  · right; right; right
    refine ⟨p, ?_⟩
    simp only [Except.error.injEq, Prod.mk.injEq] at heq
    exact heq.1
  · have he2 : e = e2 := by
      simp only [Except.error.injEq, Prod.mk.injEq] at heq
      exact heq.1
    subst he2
    cases e with
    | stateViolation => exact Or.inl rfl
    | stuck => exact Or.inr (Or.inl rfl)
    | done => exact Or.inr (Or.inr (Or.inl rfl))
    | missing p => exact absurd rfl (hnm p)
    | redundancy => exact absurd rfl hnr
    | fatal m => exact absurd rfl (hnf hco hocLt m)

/-- A run with fuel beyond the remaining state-space budget cannot time
out: it ends in a classified signal. -/
theorem runLoop_term {ctx : ParamContext} {sc : Scenario}
    (hco : CtxOk ctx) :
    ∀ (fuel : Nat) (st : NodeState Int) (rs : RunState),
      RunInv sc st rs →
      (encSpace sc).card < fuel + rs.encounters.length →
      ∃ e rs1,
        emulateRun ctx jsonState (reportHook sc) (scenarioHooks sc)
          (concreteArith ctx) fuel st rs = some (e, rs1) ∧
        (e = Sig.stateViolation ∨ e = Sig.stuck ∨ e = Sig.done ∨
          ∃ p, e = Sig.missing p) := by
  intro fuel
  induction fuel with
  | zero =>
    intro st rs hinv hcard
    exact absurd (encounters_le hinv) (by omega)
  | succ n ih =>
    intro st rs hinv hcard
    rcases hstep : stepC ctx sc st rs with ⟨e, rs1⟩ | ⟨st1, rs1⟩
    · refine ⟨e, rs1, ?_, stepC_err_sig hco hinv.ocLt hstep⟩
      unfold stepC at hstep
      simp only [emulateRun, hstep]
    · have ⟨hinv1, hlen⟩ := stepC_inv hco hinv hstep
      have hrec := ih st1 rs1 hinv1 (by omega)
      rcases hrec with ⟨e, rs2, hrun, hcls⟩
      refine ⟨e, rs2, ?_, hcls⟩
      unfold stepC at hstep
      simp only [emulateRun, hstep]
      exact hrun

/-- One scenario run with fuel `runBound sc` always ends in a classified
signal (no timeout), for any carried-over `targetable` map. -/
theorem runScenario_term {ctx : ParamContext} {sc : Scenario}
    (hco : CtxOk ctx) (hout : sc.output ≠ [])
    (tgt : List (String × String)) (fuel : Nat) (hfuel : runBound sc ≤ fuel) :
    ∃ e rs1, runScenario fuel ctx sc tgt = some (e, rs1) ∧
      (e = Sig.stateViolation ∨ e = Sig.stuck ∨ e = Sig.done ∨
        ∃ p, e = Sig.missing p) := by
  unfold runScenario
  refine runLoop_term hco fuel initNode (initRun tgt) ⟨?_, ?_, ?_, ?_,
    ?_, ?_, ?_⟩ ?_
  · decide
  · exact valSet_zero sc
  · exact valSet_zero sc
  · exact Nat.zero_le _
  · exact List.length_pos.mpr hout
  · exact List.nodup_nil
  · intro e he
    cases he
  · have : runBound sc = (encSpace sc).card + 1 := rfl
    have h0 : (initRun tgt).encounters.length = 0 := rfl
    omega

/-! ## Termination of the search loop

Every pushed child binds one more decision point than its parent; the
decision points are drawn from a fixed list of twelve (four kinds at each
of the three slots), each with at most seven options.  A weighted count
over the stack therefore strictly decreases at every loop iteration. -/

/-- The evaluation of the scenario loop never runs out of fuel and never
ends in a rethrown fatal error, given sane stores and scenarios: it is
either invalid or finished. -/
theorem evalGo_term {ctx : ParamContext} (hco : CtxOk ctx) (innerFuel : Nat) :
    ∀ (scs : List Scenario) (d : Nat) (b : Option Param)
      (tgt : List (String × String)),
      (∀ sc ∈ scs, sc.output ≠ [] ∧ runBound sc ≤ innerFuel) →
      (evalGo innerFuel ctx d b tgt scs = EvalResult.invalid ∨
       ∃ d2 b2, evalGo innerFuel ctx d b tgt scs =
         EvalResult.finished d2 b2) := by
  intro scs
  induction scs with
  | nil =>
    intro d b tgt _
    exact Or.inr ⟨d, b, rfl⟩
  | cons sc rest ih =>
    intro d b tgt hsc
    have hhd := hsc sc (List.mem_cons_self sc rest)
    rcases runScenario_term hco hhd.1 tgt innerFuel hhd.2 with
      ⟨e, rs1, hrun, hcls⟩
    have htl : ∀ s ∈ rest, s.output ≠ [] ∧ runBound s ≤ innerFuel :=
      fun s hs => hsc s (List.mem_cons_of_mem sc hs)
    rw [evalGo, hrun]
    rcases hcls with rfl | rfl | rfl | ⟨p, rfl⟩
    · exact Or.inl rfl
    · exact Or.inl rfl
    · exact ih (d + 1) b rs1.targetable htl
    · exact ih d (some p) rs1.targetable htl

/-- The missing decision point determined by a slot is unbound and has one
of the four decision-point shapes for that slot. -/
theorem firstUnboundAt_shape {ctx : ParamContext} {k : Nat} {p : Param}
    (h : firstUnboundAt ctx k = some p) :
    ctxGet ctx p.key = none ∧
    (p = paramOp ("node00:" ++ toString k) ∨
     p = argRead ("node00:" ++ toString k) ∨
     p = constantParam ("node00:" ++ toString k) ∨
     p = argWrite ("node00:" ++ toString k)) := by
  unfold firstUnboundAt at h
  split at h
  · rename_i hop
    cases h
    exact ⟨hop, Or.inl rfl⟩
  · rename_i op hop
    split at h
    · split at h
      · rename_i hrd
        cases h
        exact ⟨hrd, Or.inr (Or.inl rfl)⟩
      · rename_i src hrd
        split at h
        · rename_i hcond
          cases h
          exact ⟨hcond.2, Or.inr (Or.inr (Or.inl rfl))⟩
        · split at h
          · rename_i hcond2
            cases h
            exact ⟨hcond2.2, Or.inr (Or.inr (Or.inr rfl))⟩
          · cases h
    · cases h

theorem canonicalMissing_shape {ctx : ParamContext} {p : Param}
    (h : canonicalMissing ctx = some p) :
    ∃ k, k < 3 ∧ firstUnboundAt ctx k = some p := by
  unfold canonicalMissing at h
  split at h
  · rename_i q h0
    cases h
    exact ⟨0, by omega, h0⟩
  · rename_i h0
    split at h
    · rename_i q h1
      cases h
      exact ⟨1, by omega, h1⟩
    · exact ⟨2, by omega, h⟩

/-- The twelve decision points of the three-slot program. -/
def allowedParams : List Param :=
  [paramOp "node00:0", argRead "node00:0", argWrite "node00:0",
   constantParam "node00:0",
   paramOp "node00:1", argRead "node00:1", argWrite "node00:1",
   constantParam "node00:1",
   paramOp "node00:2", argRead "node00:2", argWrite "node00:2",
   constantParam "node00:2"]

theorem allowed_of_shape {p : Param} {k : Nat} (hk : k < 3)
    (hs : p = paramOp ("node00:" ++ toString k) ∨
      p = argRead ("node00:" ++ toString k) ∨
      p = constantParam ("node00:" ++ toString k) ∨
      p = argWrite ("node00:" ++ toString k)) :
    p ∈ allowedParams := by
  interval_cases k <;> rcases hs with rfl | rfl | rfl | rfl <;> decide

/-- Binding an allowed decision point to one of its options preserves the
store sanity invariant. -/
theorem ctxOk_child {ctx : ParamContext} {p : Param} {v : Opt}
    (hco : CtxOk ctx) (hmem : p ∈ allowedParams) (hv : v ∈ p.options) :
    CtxOk ((p.key, v) :: ctx) := by
  constructor
  · intro loc w hw
    rw [ctxGet_cons] at hw
    by_cases hkey : p.key = (paramOp loc).key
    · rw [if_pos hkey] at hw
      cases hw
      fin_cases hmem <;>
        first
        | exact hv
        | (exfalso
           simp only [paramOp, argRead, argWrite, constantParam,
             param] at hkey
           have h2 := congrArg String.data hkey
           simp [String.data_append] at h2)
    · rw [if_neg hkey] at hw
      exact hco.opOk loc w hw
  · intro loc w hw
    rw [ctxGet_cons] at hw
    by_cases hkey : p.key = (constantParam loc).key
    · rw [if_pos hkey] at hw
      cases hw
      fin_cases hmem <;>
        first
        | simpa [constantParam, param] using hv
        | (exfalso
           simp only [paramOp, argRead, argWrite, constantParam,
             param] at hkey
           have h2 := congrArg String.data hkey
           simp [String.data_append] at h2)
    · rw [if_neg hkey] at hw
      exact hco.constOk loc w hw

theorem ctxOk_empty : CtxOk emptyContext := by
  constructor
  · intro loc v h
    cases h
  · intro loc v h
    cases h

/-- How many of the twelve decision points a store binds. -/
def boundCount (ctx : ParamContext) : Nat :=
  (allowedParams.filter (fun p => (ctxGet ctx p.key).isSome)).length

/-- Generic counting step: if the new predicate differs from the old one
only at the key of a designated member (turning false into true), the
filtered length grows by exactly one, provided keys are distinct. -/
theorem length_filter_update {l : List Param} {q q2 : Param → Bool}
    {a : Param} (hmem : a ∈ l) (hkeys : (l.map Param.key).Nodup)
    (hq : q a = false) (hq2 : q2 a = true)
    (heq : ∀ x ∈ l, x.key ≠ a.key → q2 x = q x) :
    (l.filter q2).length = (l.filter q).length + 1 := by
  induction l with
  | nil => cases hmem
  | cons b t ih =>
    rw [List.map_cons, List.nodup_cons] at hkeys
    rcases List.mem_cons.mp hmem with rfl | hmem2
    · rw [List.filter_cons, List.filter_cons, hq, hq2]
      have hsame : ∀ x ∈ t, q2 x = q x := by
        intro x hx
        refine heq x (List.mem_cons_of_mem _ hx) ?_
        intro hk
        exact hkeys.1 (hk ▸ List.mem_map_of_mem Param.key hx)
      rw [List.filter_congr hsame]
      simp
    · have hbk : b.key ≠ a.key := by
        intro hk
        exact hkeys.1 (hk ▸ List.mem_map_of_mem Param.key hmem2)
      have hqb : q2 b = q b := heq b (List.mem_cons_self _ _) hbk
      have hrec := ih hmem2 hkeys.2
        (fun x hx hxk => heq x (List.mem_cons_of_mem _ hx) hxk)
      rw [List.filter_cons, List.filter_cons, hqb]
      cases hb : q b <;> simp [hrec]

theorem allowedKeys_nodup : (allowedParams.map Param.key).Nodup := by
  decide

theorem boundCount_child {ctx : ParamContext} {p : Param} (v : Opt)
    (hmem : p ∈ allowedParams) (hub : ctxGet ctx p.key = none) :
    boundCount ((p.key, v) :: ctx) = boundCount ctx + 1 ∧
      boundCount ctx ≤ 11 := by
  have hstep : boundCount ((p.key, v) :: ctx) = boundCount ctx + 1 := by
    unfold boundCount
    refine length_filter_update hmem allowedKeys_nodup ?_ ?_ ?_
    · rw [hub]
      rfl
    · rw [ctxGet_cons, if_pos rfl]
      rfl
    · intro x _ hxk
      rw [ctxGet_cons, if_neg (fun hh => hxk hh.symm)]
  refine ⟨hstep, ?_⟩
  have h12 : boundCount ((p.key, v) :: ctx) ≤ 12 := by
    have := List.length_filter_le
      (fun p2 => (ctxGet ((p.key, v) :: ctx) p2.key).isSome) allowedParams
    simpa [allowedParams] using this
  omega

def ctxMeasure (ctx : ParamContext) : Nat := 8 ^ (12 - boundCount ctx)

def stackMeasure (stack : List ParamContext) : Nat :=
  (stack.map ctxMeasure).sum

theorem ctxMeasure_pos (ctx : ParamContext) : 1 ≤ ctxMeasure ctx := by
  unfold ctxMeasure
  exact Nat.one_le_pow _ _ (by norm_num)

theorem stackMeasure_cons (c : ParamContext) (s : List ParamContext) :
    stackMeasure (c :: s) = ctxMeasure c + stackMeasure s := rfl

theorem stackMeasure_append (a b : List ParamContext) :
    stackMeasure (a ++ b) = stackMeasure a + stackMeasure b := by
  simp [stackMeasure]

theorem stackMeasure_reverse (a : List ParamContext) :
    stackMeasure a.reverse = stackMeasure a := by
  simp [stackMeasure, List.map_reverse, List.sum_reverse]

theorem sum_map_const {α : Type} (l : List α) (g : α → Nat) (k : Nat)
    (h : ∀ x ∈ l, g x = k) : (l.map g).sum = l.length * k := by
  induction l with
  | nil => simp
  | cons a t ih =>
    rw [List.map_cons, List.sum_cons, h a (List.mem_cons_self a t),
      ih (fun x hx => h x (List.mem_cons_of_mem a hx)), List.length_cons,
      Nat.succ_mul]
    omega

theorem allowed_options_le : ∀ q ∈ allowedParams, q.options.length ≤ 7 := by
  decide

def StackOk (stack : List ParamContext) : Prop := ∀ c ∈ stack, CtxOk c

/-- The children pushed for an allowed, unbound decision point weigh
strictly less than the popped parent. -/
theorem children_measure_lt {ctx : ParamContext} {p : Param}
    (hmem : p ∈ allowedParams) (hub : ctxGet ctx p.key = none) :
    stackMeasure (p.options.map (fun o => (p.key, o) :: ctx)) <
      ctxMeasure ctx := by
  have hlen := allowed_options_le p hmem
  have hb11 : boundCount ctx ≤ 11 :=
    (boundCount_child (Opt.num 0) hmem hub).2
  have hsum : stackMeasure (p.options.map (fun o => (p.key, o) :: ctx)) =
      p.options.length * 8 ^ (11 - boundCount ctx) := by
    unfold stackMeasure
    rw [List.map_map]
    refine sum_map_const _ _ _ ?_
    intro o _
    show ctxMeasure ((p.key, o) :: ctx) = _
    unfold ctxMeasure
    rw [(boundCount_child o hmem hub).1]
    congr 1
    omega
  rw [hsum]
  have hm : ctxMeasure ctx = 8 * 8 ^ (11 - boundCount ctx) := by
    unfold ctxMeasure
    rw [show 12 - boundCount ctx = (11 - boundCount ctx) + 1 by omega]
    rw [pow_succ]
    ring
  rw [hm]
  have hpos : 1 ≤ 8 ^ (11 - boundCount ctx) := Nat.one_le_pow _ _ (by norm_num)
  calc p.options.length * 8 ^ (11 - boundCount ctx)
      ≤ 7 * 8 ^ (11 - boundCount ctx) := Nat.mul_le_mul_right _ hlen
    _ < 8 * 8 ^ (11 - boundCount ctx) := by
        exact (Nat.mul_lt_mul_right hpos).mpr (by norm_num)

/-- The search loop, given enough fuel for its stack weight, terminates in
either success or exhaustion (never a fatal error, never fuel starvation),
for sane stacks and scenarios. -/
theorem solveLoop_term {scs : List Scenario} {innerFuel : Nat}
    (hscs : ∀ sc ∈ scs, sc.output ≠ [] ∧ runBound sc ≤ innerFuel) :
    ∀ (fuel : Nat) (stack : List ParamContext),
      stackMeasure stack < fuel → StackOk stack →
      ∃ res, solveLoop scs innerFuel fuel stack = some res ∧
        (res = SolveResult.exhausted ∨
          ∃ c, res = SolveResult.success c) := by
  intro fuel
  induction fuel with
  | zero =>
    intro stack hmeas _
    exact absurd hmeas (by omega)
  | succ n ih =>
    intro stack hmeas hok
    cases stack with
    | nil => exact ⟨SolveResult.exhausted, rfl, Or.inl rfl⟩
    | cons ctx rest =>
      have hctx : CtxOk ctx := hok ctx (List.mem_cons_self ctx rest)
      have hrest : StackOk rest := fun c hc =>
        hok c (List.mem_cons_of_mem ctx hc)
      rw [stackMeasure_cons] at hmeas
      have hpos := ctxMeasure_pos ctx
      rcases evalGo_term hctx innerFuel scs 0 none [] hscs with
        hinv | ⟨d2, b2, hfin⟩
      · rw [solveLoop, hinv]
        exact ih rest (by omega) hrest
      · rw [solveLoop]
        simp only [hfin]
        by_cases hd : d2 = scs.length
        · rw [if_pos hd]
          exact ⟨SolveResult.success ctx, rfl, Or.inr ⟨ctx, rfl⟩⟩
        · rw [if_neg hd]
          cases b2 with
          | none => exact ih rest (by omega) hrest
          | some p =>
            have hcan : canonicalMissing ctx = some p := by
              rcases evalGo_branchPt scs 0 none [] d2 p hfin with h0 | h0
              · cases h0
              · exact h0
            rcases canonicalMissing_shape hcan with ⟨k, hk3, hfu⟩
            rcases firstUnboundAt_shape hfu with ⟨hub, hshape⟩
            have hmem := allowed_of_shape hk3 hshape
            simp only [bifurcate_unbound ctx p hub]
            apply ih
            · rw [stackMeasure_append, stackMeasure_reverse]
              have := children_measure_lt hmem hub
              omega
            · intro c hc
              rcases List.mem_append.mp hc with hc1 | hc2
              · rw [List.mem_reverse] at hc1
                rcases List.mem_map.mp hc1 with ⟨o, ho, rfl⟩
                exact ctxOk_child hctx hmem ho
              · exact hrest c hc2

/-- Inner fuel sufficient for every scenario of the run. -/
def innerFuelFor (scs : List Scenario) : Nat := (scs.map runBound).foldr max 0

/-- Outer fuel covering the weight of the initial one-element stack. -/
def solveFuel : Nat := 8 ^ 12 + 1

theorem mem_le_foldr_max : ∀ (l : List Nat), ∀ x ∈ l, x ≤ l.foldr max 0 := by
  intro l
  induction l with
  | nil =>
    intro x hx
    cases hx
  | cons a t ih =>
    intro x hx
    rcases List.mem_cons.mp hx with rfl | hx2
    · exact le_max_left _ _
    · exact le_trans (ih x hx2) (le_max_right _ _)

/-- **C8** counterexample to the unqualified claim: on a scenario whose
expected output is empty, the search does NOT end in success or
exhaustion — the very first emulated step sends a value past the full
expected output, which throws the plain fatal Error "unreachable" that
`solve` rethrows, so the loop reports a fatal abort instead. -/
theorem C8_counterexample :
    solveLoop [({ input := [], output := [] } : Scenario)] 30 300
        [emptyContext] = some (SolveResult.fatalErr "unreachable") ∧
    ∀ res,
      solveLoop [({ input := [], output := [] } : Scenario)] 30 300
          [emptyContext] = some res →
      res ≠ SolveResult.exhausted ∧ ∀ c, res ≠ SolveResult.success c := by
  have h : solveLoop [({ input := [], output := [] } : Scenario)] 30 300
      [emptyContext] = some (SolveResult.fatalErr "unreachable") := by
    decide
  refine ⟨h, ?_⟩
  intro res hres
  rw [h] at hres
  injection hres with h2
  subst h2
  constructor
  · intro hx
    cases hx
  · intro c hx
    cases hx

/-- **C8** (amended): for every finite scenario list whose expected
outputs are all nonempty, the search loop of `solve` terminates: with the
stated, explicitly computable fuel it returns a result, which is either a
successful candidate or stack exhaustion — never fuel starvation and
never a fatal abort.  (With an empty expected output the search instead
aborts with the fatal "unreachable" error: see the counterexample.)  The
underlying measure argument is witnessed by the second conjunct: binding
any unbound decision point makes a child store binding strictly more
decision points, within the finite budget of twelve decision points. -/
theorem C8_search_terminates (scs : List Scenario)
    (h : ∀ sc ∈ scs, sc.output ≠ []) :
    (∃ res, solveLoop scs (innerFuelFor scs) solveFuel [emptyContext] =
        some res ∧
      (res = SolveResult.exhausted ∨ ∃ c, res = SolveResult.success c)) ∧
    (∀ (ctx : ParamContext) (p : Param) (v : Opt), p ∈ allowedParams →
      ctxGet ctx p.key = none →
      boundCount ((p.key, v) :: ctx) = boundCount ctx + 1 ∧
        boundCount ctx ≤ 11 ∧ boundCount ((p.key, v) :: ctx) ≤ 12) := by
  constructor
  · apply solveLoop_term
    · intro sc hsc
      refine ⟨h sc hsc, ?_⟩
      unfold innerFuelFor
      exact mem_le_foldr_max _ _ (List.mem_map_of_mem runBound hsc)
    · show stackMeasure [emptyContext] < solveFuel
      have hsm : stackMeasure [emptyContext] = ctxMeasure emptyContext := by
        simp [stackMeasure]
      rw [hsm]
      have hb : boundCount emptyContext = 0 := rfl
      unfold ctxMeasure solveFuel
      rw [hb]
      norm_num
    · intro c hc
      rcases List.mem_cons.mp hc with rfl | hc2
      · exact ctxOk_empty
      · cases hc2
  · intro ctx p v hmem hub
    have h1 := (boundCount_child v hmem hub).1
    have h2 := (boundCount_child v hmem hub).2
    exact ⟨h1, h2, by omega⟩

/-- Witness for C8 on a one-scenario list with in-range input and a
nonempty expected output. -/
theorem C8_search_terminates_witness :
    (∀ sc ∈ [({ input := [0], output := [0] } : Scenario)],
      sc.output ≠ []) ∧
    (∃ res,
      solveLoop [({ input := [0], output := [0] } : Scenario)]
          (innerFuelFor [({ input := [0], output := [0] } : Scenario)])
          solveFuel [emptyContext] =
        some res ∧
      (res = SolveResult.exhausted ∨ ∃ c, res = SolveResult.success c)) :=
  by
  have hok : ∀ sc ∈ [({ input := [0], output := [0] } : Scenario)],
      sc.output ≠ [] := by
    intro sc hsc
    rcases List.mem_cons.mp hsc with rfl | hx
    · simp
    · cases hx
  exact ⟨hok,
    (C8_search_terminates [{ input := [0], output := [0] }] hok).1⟩

end TIS
